import Mathlib

/-!
# bertjohnson/logger: the context-to-field extraction of `logger.go`

A shallow embedding of `getFields`, of the leveled emitters, of
`LogProvider.Output` and of the configuration built by `init` in
`src/logger.go`, followed by theorems about them.

Conventions of the embedding.

* A Go `string` is a Lean `String`; `strings.Split` and `strings.SplitN` cut at
  the ASCII separators `&` and `=`, so cutting the character list is cutting
  the byte sequence.
* A Go `uint` is a `Nat`, a Go `int` and a `time.Duration` are an `Int`; the one
  place where the width of a machine integer decides a result is
  `time.Time.Sub`, which saturates at the bounds of a 64-bit duration, and
  `strconv.Atoi`, which rejects what does not fit 64 bits.
* The string constants of package `types/context` are not part of the sources
  at hand: `getFields` takes them as the parameter `kt : ContextType`.
* The process-wide `hostname` and the readings of `time.Now()` are parameters,
  and so are the environment variables, `runtime.GOOS` and `strings.ToLower`
  in the configuration of `init`.
* What an emitter does to the loggers and to the process is a list of events;
  `(*zap.Logger).Fatal` writes its record, has the core sync the sink and ends
  the process, as zap does.
* A `Context` is a context whose `Value` method returns: the nil interface, a
  chain of `context.WithValue` bindings, or a `*gin.Context` that points to a
  `gin.Context`. The nil `*gin.Context`, which makes a non-nil interface, is
  the subject of `getFieldsOfPointer`.
-/

namespace Logger

/-! ## Values of the Go runtime that the code handles -/

/-- A `time.Time`, as the instant it denotes: nanoseconds elapsed since the
zero instant, January 1 of year 1, 00:00:00 UTC. -/
structure Time where
  nsec : Int
deriving DecidableEq, Repr

/-- The method `time.Time.IsZero`. -/
def Time.IsZero (t : Time) : Bool := t.nsec == 0

/-- The smallest `time.Duration`, an `int64` count of nanoseconds. -/
def minDuration : Int := -(2 ^ 63)

/-- The largest `time.Duration`. -/
def maxDuration : Int := 2 ^ 63 - 1

/-- The method `time.Time.Sub` on instants without a monotonic reading (`UTC()`
strips it from `now`): the duration `t - u`, and the minimum or maximum
duration when `t - u` does not fit a `time.Duration`. -/
def Time.Sub (t u : Time) : Int :=
  let d := t.nsec - u.nsec
  if d < minDuration then minDuration
  else if maxDuration < d then maxDuration
  else d

/-- The dynamic value of an `interface{}` stored in a context. -/
inductive GoValue where
  | str (s : String)
  | uint (n : Nat)
  | int (i : Int)
  | bool (b : Bool)
  | time (t : Time)
deriving DecidableEq, Repr

/-- The payload of a `zapcore.Field`, by field type. -/
inductive FieldValue where
  | str (s : String)
  | uint (n : Nat)
  | int (i : Int)
  | duration (d : Int)
deriving DecidableEq, Repr

/-- A `zapcore.Field`: a key and a typed value. -/
structure Field where
  Key : String
  Value : FieldValue
deriving DecidableEq, Repr

/-- The constructor `zap.String`. -/
def zapString (key val : String) : Field := ⟨key, FieldValue.str val⟩

/-- The constructor `zap.Uint`. -/
def zapUint (key : String) (val : Nat) : Field := ⟨key, FieldValue.uint val⟩

/-- The constructor `zap.Int`. -/
def zapInt (key : String) (val : Int) : Field := ⟨key, FieldValue.int val⟩

/-- The constructor `zap.Duration`. -/
def zapDuration (key : String) (val : Int) : Field := ⟨key, FieldValue.duration val⟩

/-! ## Contexts -/

/-- An `http.Header`: canonical header names with their values. -/
abbrev Header := List (String × List String)

/-- The method `http.Header.Get`: the first value under the key, or `""`. -/
def Header.Get (h : Header) (key : String) : String :=
  match h.lookup key with
  | some (v :: _) => v
  | _ => ""

/-- A `gin.ResponseWriter`; `Header` is what its method `Header()` returns,
`none` for a nil map. -/
structure ResponseWriter where
  Header : Option Header
deriving DecidableEq, Repr

/-- A `gin.Context` as far as `getFields` touches it: the `Keys` map (the first
binding of a key is the one in force) and the `Writer`, `none` when nil. -/
structure GinContext where
  Keys : List (String × GoValue)
  Writer : Option ResponseWriter
deriving DecidableEq, Repr

/-- The method `(*gin.Context).Value` at a string key: the entry of `Keys`. -/
def GinContext.Value (c : GinContext) (key : String) : Option GoValue :=
  c.Keys.lookup key

/-- The method `(*gin.Context).Set`. -/
def GinContext.Set (c : GinContext) (key : String) (value : GoValue) : GinContext :=
  { c with Keys := (key, value) :: c.Keys }

/-- A `context.Context` as `getFields` can receive it: the nil interface, a
chain of `context.WithValue` bindings under string keys (outermost binding
first), or a `*gin.Context`. -/
inductive Context where
  | nil
  | values (bindings : List (String × GoValue))
  | gin (c : GinContext)
deriving DecidableEq, Repr

/-- The method `Value` at a string key; `none` is the nil interface. On the nil
context the method is never called by `getFields`. -/
def Context.Value : Context → String → Option GoValue
  | .nil, _ => none
  | .values bindings, key => bindings.lookup key
  | .gin c, key => c.Value key

/-- The string constants of package `types/context` that `logger.go` uses, one
per constant, under the constant's name. Each is at once the key looked up in
the context and the name of the emitted field. -/
structure ContextType where
  AccountEmail : String
  AccountID : String
  BLOBID : String
  BLOBProviderID : String
  ClientDate : String
  ClientID : String
  Collection : String
  Database : String
  DataProviderID : String
  Exchange : String
  File : String
  Hostname : String
  IndexID : String
  Line : String
  NodeID : String
  NodeType : String
  NodeURI : String
  ObjectIDs : String
  Referer : String
  RequestStart : String
  RequestID : String
  RequestIP : String
  RequestMethod : String
  RequestURL : String
  ResponseCode : String
  ResponseLength : String
  SearchEngineID : String
  SecretProviderID : String
  WorkerID : String
  SegmentStart : String
deriving DecidableEq, Repr

/-! ## Library functions on strings -/

/-- The pieces of a character list between the occurrences of `sep`. -/
def splitChars (sep : Char) : List Char → List (List Char)
  | [] => [[]]
  | c :: cs =>
    if c = sep then [] :: splitChars sep cs
    else
      match splitChars sep cs with
      | [] => [[c]]
      | piece :: pieces => (c :: piece) :: pieces

/-- The function `strings.Split(s, sep)` for a one-character separator. -/
def strings.Split (s : String) (sep : Char) : List String :=
  (splitChars sep s.data).map String.mk

/-- The position of the first `sep`: the characters before it and after it. -/
def cutChars (sep : Char) : List Char → Option (List Char × List Char)
  | [] => none
  | c :: cs =>
    if c = sep then some ([], cs)
    else
      match cutChars sep cs with
      | some (before, after) => some (c :: before, after)
      | none => none

/-- The function `strings.SplitN(s, sep, 2)` for a one-character separator: the
text before the first `sep` and the text after it, or `s` alone. -/
def strings.SplitN2 (s : String) (sep : Char) : List String :=
  match cutChars sep s.data with
  | some (before, after) => [String.mk before, String.mk after]
  | none => [s]

/-- The value of a run of decimal digits, `none` at any other character. -/
def parseDigits : List Char → Nat → Option Nat
  | [], acc => some acc
  | c :: cs, acc =>
    if '0' ≤ c ∧ c ≤ '9' then parseDigits cs (acc * 10 + (c.toNat - '0'.toNat))
    else none

/-- The function `strconv.Atoi` with a 64-bit `int`: an optional sign and at
least one decimal digit, and a value that fits; `none` is a non-nil error. -/
def strconv.Atoi (s : String) : Option Int :=
  let (neg, digits) :=
    match s.data with
    | '-' :: rest => (true, rest)
    | '+' :: rest => (false, rest)
    | rest => (false, rest)
  if digits = [] then none
  else
    match parseDigits digits 0 with
    | none => none
    | some n =>
      let v : Int := if neg then -(n : Int) else (n : Int)
      if -(2 ^ 63 : Int) ≤ v ∧ v ≤ 2 ^ 63 - 1 then some v else none

/-! ## `getFields` -/

/-- One string-typed block of `getFields`, such as lines 163 to 167:
`if v, ok := ctx.Value(key).(string); ok { if v != "" { append zap.String(key, v) } }`.
The result is what the block appends. -/
def stringField (ctx : Context) (key : String) : List Field :=
  match ctx.Value key with
  | some (GoValue.str v) => if v ≠ "" then [zapString key v] else []
  | _ => []

/-- One unsigned-integer block of `getFields`, such as lines 254 to 256:
`if v, ok := ctx.Value(key).(uint); ok { append zap.Uint(key, v) }`. -/
def uintField (ctx : Context) (key : String) : List Field :=
  match ctx.Value key with
  | some (GoValue.uint v) => [zapUint key v]
  | _ => []

/-- The loop of lines 282 to 287 over the parts of the composite value: a part
that `strings.SplitN(_, "=", 2)` cuts in two appends one string field. -/
def objectIDsLoop : List String → List Field → List Field
  | [], fields => fields
  | objectID :: rest, fields =>
    match strings.SplitN2 objectID '=' with
    | [name, value] => objectIDsLoop rest (fields ++ [zapString name value])
    | _ => objectIDsLoop rest fields

/-- The block "Object IDs" of `getFields`, lines 280 to 288; the result is what
the block appends. -/
def objectIDsFields (kt : ContextType) (ctx : Context) : List Field :=
  match ctx.Value kt.ObjectIDs with
  | some (GoValue.str objectIDs) => objectIDsLoop (strings.Split objectIDs '&') []
  | _ => []

/-- The block "Request Duration" of `getFields`, lines 298 to 302. -/
def requestDurationField (ctx : Context) (now : Time) (key : String) : List Field :=
  match ctx.Value key with
  | some (GoValue.time requestStart) =>
    if !requestStart.IsZero then [zapDuration "requestDuration" (now.Sub requestStart)] else []
  | _ => []

/-- Lines 162 to 277 of `getFields`: the blocks from "Account Email" to
"Node URI", each appending to `fields`. -/
def leadingFields (kt : ContextType) (ctx : Context) (fields : List Field) : List Field :=
  let fields := fields ++ stringField ctx kt.AccountEmail
  let fields := fields ++ stringField ctx kt.AccountID
  let fields := fields ++ stringField ctx kt.BLOBID
  let fields := fields ++ stringField ctx kt.BLOBProviderID
  let fields := fields ++ stringField ctx kt.ClientDate
  let fields := fields ++ stringField ctx kt.ClientID
  let fields := fields ++ stringField ctx kt.Collection
  let fields := fields ++ stringField ctx kt.Database
  let fields := fields ++ stringField ctx kt.DataProviderID
  let fields := fields ++ stringField ctx kt.Exchange
  let fields := fields ++ stringField ctx kt.File
  let fields := fields ++ stringField ctx kt.Hostname
  let fields := fields ++ stringField ctx kt.IndexID
  let fields := fields ++ uintField ctx kt.Line
  let fields := fields ++ stringField ctx kt.NodeID
  let fields := fields ++ stringField ctx kt.NodeType
  let fields := fields ++ stringField ctx kt.NodeURI
  fields

/-- Lines 290 to 361 of `getFields`: the blocks from "Referer" to "Worker ID". -/
def trailingFields (kt : ContextType) (now : Time) (ctx : Context) (fields : List Field) :
    List Field :=
  let fields := fields ++ stringField ctx kt.Referer
  let fields := fields ++ requestDurationField ctx now kt.RequestStart
  let fields := fields ++ stringField ctx kt.RequestID
  let fields := fields ++ stringField ctx kt.RequestIP
  let fields := fields ++ stringField ctx kt.RequestMethod
  let fields := fields ++ stringField ctx kt.RequestURL
  let fields := fields ++ uintField ctx kt.ResponseCode
  let fields := fields ++ uintField ctx kt.ResponseLength
  let fields := fields ++ stringField ctx kt.SearchEngineID
  let fields := fields ++ stringField ctx kt.SecretProviderID
  let fields := fields ++ stringField ctx kt.WorkerID
  fields

/-- What a call of `getFields` leaves behind: the returned fields and the
context after the call (a `*gin.Context` is written to by line 379). -/
structure Extraction where
  fields : List Field
  ctx : Context
deriving DecidableEq, Repr

/-- The block "Gin-specific logging" of `getFields`, lines 364 to 383, on the
fields gathered so far. `now` is the reading of line 160, `now2` the one that
`time.Now()` of line 377 returns. The test `ginContext != nil` of line 366
holds of every `*gin.Context` on which the calls of `Value` above returned. -/
def ginFields (kt : ContextType) (now now2 : Time) (ctx : Context) (fields : List Field) :
    Extraction :=
  match ctx with
  | Context.gin ginContext =>
    if ginContext.Value "bulk" ≠ some (GoValue.bool true) then
      match ginContext.Writer with
      | some writer =>
        match writer.Header with
        | some header =>
          let contentLengthString := header.Get "Content-Length"
          let fields :=
            match strconv.Atoi contentLengthString with
            | some contentLength => fields ++ [zapInt "contentLength" contentLength]
            | none => fields
          let fields :=
            match ctx.Value kt.SegmentStart with
            | some (GoValue.time segmentStart) =>
              fields ++ [zapDuration "segmentDuration" (now2.Sub segmentStart)]
            | _ => fields
          ⟨fields, Context.gin (ginContext.Set "segmentStart" (GoValue.time now))⟩
        | none => ⟨fields, ctx⟩
      | none => ⟨fields, ctx⟩
    else ⟨fields, ctx⟩
  | _ => ⟨fields, ctx⟩

/-- The function `getFields` of `logger.go`, lines 153 to 386. `hostname` is the
package variable, `now` the reading of `time.Now().UTC()` at line 160 and `now2`
the reading line 377 would take. -/
def getFields (kt : ContextType) (hostname : String) (now now2 : Time) (ctx : Context) :
    Extraction :=
  let fields := [zapString "server" hostname]
  if ctx ≠ Context.nil then
    let fields := leadingFields kt ctx fields
    let fields := fields ++ objectIDsFields kt ctx
    let fields := trailingFields kt now ctx fields
    ginFields kt now now2 ctx fields
  else ⟨fields, ctx⟩

/-- The method `(*gin.Context).Value` called through a pointer, `none` being
the nil pointer: the method reads the `Keys` of its receiver, so on the nil
pointer it panics, which the outer `none` of the result stands for. -/
def ginPointerValue (ginContext : Option GinContext) (key : String) :
    Option (Option GoValue) :=
  match ginContext with
  | some c => some (c.Value key)
  | none => none

/-- The function `getFields` called with a `*gin.Context` as its context, the
pointer being possibly nil; `none` is a panic. An interface that holds a
`*gin.Context` is not the nil interface, so the test `ctx != nil` of line 159
passes whatever the pointer; line 163 then calls `Value` through the pointer,
long before line 366 tests `ginContext != nil`. Once that first call has
returned, the pointer is not nil and the call goes on as `getFields` does on the
`gin.Context` pointed to. -/
def getFieldsOfPointer (kt : ContextType) (hostname : String) (now now2 : Time)
    (ginContext : Option GinContext) : Option Extraction :=
  match ginPointerValue ginContext kt.AccountEmail with
  | none => none
  | some _ =>
    match ginContext with
    | some c => some (getFields kt hostname now now2 (Context.gin c))
    | none => none

/-! ## The emitters -/

/-- The severities of `zapcore.Level`. -/
inductive Level where
  | Debug
  | Info
  | Warn
  | Error
  | DPanic
  | Panic
  | Fatal
deriving DecidableEq, Repr

/-- The integer behind a `zapcore.Level`, by which zap orders severities:
`DebugLevel` is `-1`, `InfoLevel` is `0`, and so on up to `FatalLevel`, `5`. -/
def Level.value : Level → Int
  | Level.Debug => -1
  | Level.Info => 0
  | Level.Warn => 1
  | Level.Error => 2
  | Level.DPanic => 3
  | Level.Panic => 4
  | Level.Fatal => 5

/-- The two package-level loggers. -/
inductive Sink where
  | logger
  | externalLogger
deriving DecidableEq, Repr

/-- What a call of an emitter does to the world outside `getFields`, in order:
a call of a logging method of a sink, a call of `Sync` on a sink, a line given
to `log.Println`, the end of the process. -/
inductive Event where
  | log (sink : Sink) (level : Level) (msg : String) (fields : List Field)
  | sync (sink : Sink)
  | println (line : String)
  | exit (code : Nat)
deriving DecidableEq, Repr

/-- The events that happen: those up to the first end of the process. -/
def untilExit : List Event → List Event
  | [] => []
  | Event.exit code :: _ => [Event.exit code]
  | e :: es => e :: untilExit es

/-- What an emitter leaves behind: its events and the context after. -/
structure Outcome where
  events : List Event
  ctx : Context
deriving DecidableEq, Repr

/-- The function `Error`, lines 118 to 120. -/
def Error (kt : ContextType) (hostname : String) (now now2 : Time) (ctx : Context)
    (data : String) : Outcome :=
  let r := getFields kt hostname now now2 ctx
  ⟨[Event.log Sink.logger Level.Error data r.fields], r.ctx⟩

/-- The method `(*zap.Logger).Fatal` on the primary logger: it writes the
record at fatal severity, on which zap's core syncs the sink and drops the
error of that sync, and then calls `os.Exit(1)`. -/
def zapFatal (msg : String) (fields : List Field) : List Event :=
  [Event.log Sink.logger Level.Fatal msg fields, Event.sync Sink.logger, Event.exit 1]

/-- The function `Fatal`, lines 123 to 130. `syncErr` is what a `Sync` of the
primary logger returns, `none` for a nil error; line 125 is where `Fatal`
itself would look at it. -/
def Fatal (kt : ContextType) (hostname : String) (now now2 : Time) (ctx : Context)
    (data : String) (syncErr : Option String) : Outcome :=
  let r := getFields kt hostname now now2 ctx
  let flushed :=
    match syncErr with
    | some err => [Event.println ("Error flushing logs for fatal error: " ++ err)]
    | none => []
  ⟨untilExit (zapFatal data r.fields ++ [Event.sync Sink.logger] ++ flushed ++ [Event.exit 1]),
    r.ctx⟩

/-- The function `Info`, lines 138 to 140. -/
def Info (kt : ContextType) (hostname : String) (now now2 : Time) (ctx : Context)
    (data : String) : Outcome :=
  let r := getFields kt hostname now now2 ctx
  ⟨[Event.log Sink.logger Level.Info data r.fields], r.ctx⟩

/-- The function `Verbose`, lines 143 to 145. -/
def Verbose (kt : ContextType) (hostname : String) (now now2 : Time) (ctx : Context)
    (data : String) : Outcome :=
  let r := getFields kt hostname now now2 ctx
  ⟨[Event.log Sink.logger Level.Debug data r.fields], r.ctx⟩

/-- The function `Warn`, lines 148 to 150. -/
def Warn (kt : ContextType) (hostname : String) (now now2 : Time) (ctx : Context)
    (data : String) : Outcome :=
  let r := getFields kt hostname now now2 ctx
  ⟨[Event.log Sink.logger Level.Warn data r.fields], r.ctx⟩

/-- The method `LogProvider.Output`, lines 43 to 46: its events and the error
it returns, `none` for nil. -/
def LogProvider.Output (depth : Int) (data : String) : List Event × Option String :=
  let _ := depth
  ([Event.log Sink.externalLogger Level.Debug data []], none)

/-! ## The configuration built by `init` -/

/-- A `zap.Config` as far as `init` sets it: the level, whether it is a
development configuration, and whether `EncoderConfig.EncodeLevel` was set to
`zapcore.CapitalColorLevelEncoder`. -/
structure Config where
  Level : Level
  Development : Bool
  ColorLevel : Bool
deriving DecidableEq, Repr

/-- The function `zap.NewDevelopmentConfig`: level `DebugLevel`. -/
def NewDevelopmentConfig : Config := ⟨Level.Debug, true, false⟩

/-- The function `zap.NewProductionConfig`: level `InfoLevel`. -/
def NewProductionConfig : Config := ⟨Level.Info, false, false⟩

/-- Lines 63 to 89 of `init`: the configuration of the primary logger and that
of the external logger. `ToLower` is `strings.ToLower`; `debug` and
`loggingLevel` are what `os.Getenv` returns for `DEBUG` and `LOGGING_LEVEL`,
`goos` is `runtime.GOOS`. -/
def initConfig (ToLower : String → String) (debug goos loggingLevel : String) :
    Config × Config :=
  let configs : Config × Config :=
    if debug ≠ "" then
      (if goos ≠ "windows" then { NewDevelopmentConfig with ColorLevel := true }
        else NewDevelopmentConfig,
       NewDevelopmentConfig)
    else (NewProductionConfig, NewProductionConfig)
  let loggerConfig := configs.1
  let externalLoggerConfig := configs.2
  let token := ToLower loggingLevel
  let loggerConfig :=
    if token = "debug" ∨ token = "verbose" ∨ token = "1" then
      { loggerConfig with Level := Level.Debug }
    else if token = "info" ∨ token = "2" then
      { loggerConfig with Level := Level.Info }
    else if token = "warn" ∨ token = "warning" ∨ token = "3" then
      { loggerConfig with Level := Level.Warn }
    else if token = "error" ∨ token = "4" then
      { loggerConfig with Level := Level.Error }
    else if token = "critical" ∨ token = "fatal" ∨ token = "5" then
      { loggerConfig with Level := Level.Panic }
    else loggerConfig
  let externalLoggerConfig := { externalLoggerConfig with Level := loggerConfig.Level }
  (loggerConfig, externalLoggerConfig)

/-! ## Definitions used to state the properties -/

/-- Modelled from the spec: the string constants of package `types/context`,
which the sources at hand do not contain. The spec names the fields
`accountId`, `requestIp` and `requestUrl`; the other names follow that
pattern. Used only to build concrete inputs. -/
def specKeys : ContextType where
  AccountEmail := "accountEmail"
  AccountID := "accountId"
  BLOBID := "blobId"
  BLOBProviderID := "blobProviderId"
  ClientDate := "clientDate"
  ClientID := "clientId"
  Collection := "collection"
  Database := "database"
  DataProviderID := "dataProviderId"
  Exchange := "exchange"
  File := "file"
  Hostname := "hostname"
  IndexID := "indexId"
  Line := "line"
  NodeID := "nodeId"
  NodeType := "nodeType"
  NodeURI := "nodeUri"
  ObjectIDs := "objectIds"
  Referer := "referer"
  RequestStart := "requestStart"
  RequestID := "requestId"
  RequestIP := "requestIp"
  RequestMethod := "requestMethod"
  RequestURL := "requestUrl"
  ResponseCode := "responseCode"
  ResponseLength := "responseLength"
  SearchEngineID := "searchEngineId"
  SecretProviderID := "secretProviderId"
  WorkerID := "workerId"
  SegmentStart := "segmentStart"

/-- The composite decomposition in the words of the specification: of the
`&`-separated segments, in order, each one that contains a `=` gives the string
field named by the text before the first `=`, valued by the text after it. -/
def compositeSpec (s : String) : List Field :=
  (strings.Split s '&').filterMap fun segment =>
    if '=' ∈ segment.data then
      some (zapString (String.mk (segment.data.takeWhile fun c => c ≠ '='))
        (String.mk ((segment.data.dropWhile fun c => c ≠ '=').drop 1)))
    else none

/-- One block of the straight-line part of `getFields`, by kind, with the
context key it reads. -/
inductive Slot where
  | str (key : String)
  | uint (key : String)
  | duration (key : String)
deriving DecidableEq, Repr

/-- The name of the field a block can append. -/
def Slot.name : Slot → String
  | Slot.str key => key
  | Slot.uint key => key
  | Slot.duration _ => "requestDuration"

/-- What a block appends. -/
def Slot.emit (ctx : Context) (now : Time) : Slot → List Field
  | Slot.str key => stringField ctx key
  | Slot.uint key => uintField ctx key
  | Slot.duration key => requestDurationField ctx now key

/-- What a run of blocks appends, block after block. -/
def emitAll (ctx : Context) (now : Time) : List Slot → List Field
  | [] => []
  | slot :: slots => slot.emit ctx now ++ emitAll ctx now slots

/-- The blocks of lines 162 to 277, in source order. -/
def leadingSlots (kt : ContextType) : List Slot :=
  [Slot.str kt.AccountEmail, Slot.str kt.AccountID, Slot.str kt.BLOBID,
   Slot.str kt.BLOBProviderID, Slot.str kt.ClientDate, Slot.str kt.ClientID,
   Slot.str kt.Collection, Slot.str kt.Database, Slot.str kt.DataProviderID,
   Slot.str kt.Exchange, Slot.str kt.File, Slot.str kt.Hostname, Slot.str kt.IndexID,
   Slot.uint kt.Line, Slot.str kt.NodeID, Slot.str kt.NodeType, Slot.str kt.NodeURI]

/-- The blocks of lines 290 to 361, in source order. -/
def trailingSlots (kt : ContextType) : List Slot :=
  [Slot.str kt.Referer, Slot.duration kt.RequestStart, Slot.str kt.RequestID,
   Slot.str kt.RequestIP, Slot.str kt.RequestMethod, Slot.str kt.RequestURL,
   Slot.uint kt.ResponseCode, Slot.uint kt.ResponseLength, Slot.str kt.SearchEngineID,
   Slot.str kt.SecretProviderID, Slot.str kt.WorkerID]

/-- The field names `getFields` can use, in the order of the source, with
`objectNames` standing where the names read out of the composite value go. -/
def fieldNames (kt : ContextType) (objectNames : List String) : List String :=
  "server" :: ((leadingSlots kt).map Slot.name ++ objectNames
    ++ (trailingSlots kt).map Slot.name ++ ["contentLength", "segmentDuration"])

/-- The constants of `types/context` name pairwise different fields, none of
them one of the names `getFields` spells out itself. -/
def ContextType.WellFormed (kt : ContextType) : Prop := (fieldNames kt []).Nodup

instance (kt : ContextType) : Decidable kt.WellFormed := by
  unfold ContextType.WellFormed; infer_instance

/-- The string-typed keys of the vocabulary that name a field. -/
def stringKeys (kt : ContextType) : List String :=
  [kt.AccountEmail, kt.AccountID, kt.BLOBID, kt.BLOBProviderID, kt.ClientDate, kt.ClientID,
   kt.Collection, kt.Database, kt.DataProviderID, kt.Exchange, kt.File, kt.Hostname,
   kt.IndexID, kt.NodeID, kt.NodeType, kt.NodeURI, kt.Referer, kt.RequestID, kt.RequestIP,
   kt.RequestMethod, kt.RequestURL, kt.SearchEngineID, kt.SecretProviderID, kt.WorkerID]

/-- The keys read as unsigned integers. -/
def uintKeys (kt : ContextType) : List String :=
  [kt.Line, kt.ResponseCode, kt.ResponseLength]

/-- The fields the block "Gin-specific logging" adds. -/
def ginAdded (kt : ContextType) (now now2 : Time) (ctx : Context) : List Field :=
  (ginFields kt now now2 ctx []).fields

/-- The calls of logging methods among the events of an emitter: for each, the
sink, the severity, the message and the fields it was given. -/
def logged : List Event → List (Sink × Level × String × List Field)
  | [] => []
  | Event.log sink level msg fields :: es => (sink, level, msg, fields) :: logged es
  | _ :: es => logged es

/-- The keys `getFields` reads from the context other than `AccountID`,
`RequestIP`, `RequestURL` and `ObjectIDs`. -/
def scenarioUnbound (kt : ContextType) : List String :=
  [kt.AccountEmail, kt.BLOBID, kt.BLOBProviderID, kt.ClientDate, kt.ClientID, kt.Collection,
   kt.Database, kt.DataProviderID, kt.Exchange, kt.File, kt.Hostname, kt.IndexID, kt.Line,
   kt.NodeID, kt.NodeType, kt.NodeURI, kt.Referer, kt.RequestStart, kt.RequestID,
   kt.RequestMethod, kt.ResponseCode, kt.ResponseLength, kt.SearchEngineID,
   kt.SecretProviderID, kt.WorkerID, kt.SegmentStart]

/-- A field made by `zap.Duration`. -/
def Field.isDuration (f : Field) : Bool :=
  match f.Value with
  | FieldValue.duration _ => true
  | _ => false

/-- A duration field named `requestDuration`. -/
def Field.isRequestDuration (f : Field) : Bool :=
  decide (f.Key = "requestDuration") && f.isDuration

/-- A string, the dynamic type asserted at the string-typed keys. -/
def GoValue.isStr : GoValue → Bool
  | GoValue.str _ => true
  | _ => false

/-- A `uint`, the dynamic type asserted at `Line`, `ResponseCode` and
`ResponseLength`. -/
def GoValue.isUint : GoValue → Bool
  | GoValue.uint _ => true
  | _ => false

/-- A `time.Time`, the dynamic type asserted at `RequestStart` and
`SegmentStart`. -/
def GoValue.isTime : GoValue → Bool
  | GoValue.time _ => true
  | _ => false

/-- The value `v` is not of the type `getFields` asserts at the key `K`: not a
string at a string-typed key (the composite key included), not a `uint` at a
numeric key, not a `time.Time` at a timestamp key. -/
def WrongType (kt : ContextType) (K : String) (v : GoValue) : Prop :=
  ((K ∈ stringKeys kt ∨ K = kt.ObjectIDs) → v.isStr = false) ∧
  (K ∈ uintKeys kt → v.isUint = false) ∧
  ((K = kt.RequestStart ∨ K = kt.SegmentStart) → v.isTime = false)

instance (kt : ContextType) (K : String) (v : GoValue) : Decidable (WrongType kt K v) := by
  unfold WrongType; infer_instance

/-- The bindings of a context or of a `Keys` map without those of the key `K`. -/
def unbind (K : String) (bindings : List (String × GoValue)) : List (String × GoValue) :=
  bindings.filter fun b => decide (b.1 ≠ K)

/-- Lowering of the ASCII capitals, on which `strings.ToLower` agrees with it
for a string of ASCII characters. Used only to build concrete inputs. -/
def asciiLower (s : String) : String := String.mk (s.data.map Char.toLower)

/-- The tokens the `switch` of `init` knows. -/
def levelTokens : List String :=
  ["debug", "verbose", "1", "info", "2", "warn", "warning", "3", "error", "4",
   "critical", "fatal", "5"]

/-- A field the block "Gin-specific logging" makes: the integer field
`contentLength` or the duration field `segmentDuration`. -/
def Field.isAugmentation (f : Field) : Bool :=
  match f.Value with
  | FieldValue.int _ => decide (f.Key = "contentLength")
  | FieldValue.duration _ => decide (f.Key = "segmentDuration")
  | _ => false

/-- The keys `getFields` reads from a context that is not a `*gin.Context`. -/
def readKeys (kt : ContextType) : List String :=
  stringKeys kt ++ uintKeys kt ++ [kt.ObjectIDs, kt.RequestStart]

/-- The fixed order of field names for a context that is not a
`*gin.Context`, with `objectNames` standing where the names read out of the
composite value go. -/
def plainOrder (kt : ContextType) (objectNames : List String) : List String :=
  ["server", kt.AccountEmail, kt.AccountID, kt.BLOBID, kt.BLOBProviderID, kt.ClientDate,
   kt.ClientID, kt.Collection, kt.Database, kt.DataProviderID, kt.Exchange, kt.File,
   kt.Hostname, kt.IndexID, kt.Line, kt.NodeID, kt.NodeType, kt.NodeURI]
  ++ objectNames
  ++ [kt.Referer, "requestDuration", kt.RequestID, kt.RequestIP, kt.RequestMethod,
      kt.RequestURL, kt.ResponseCode, kt.ResponseLength, kt.SearchEngineID,
      kt.SecretProviderID, kt.WorkerID]

/-- The field a segment with a `=` stands for: named by the text before the
first `=`, valued by the text after it. -/
def segmentField (segment : String) : Field :=
  zapString (String.mk (segment.data.takeWhile fun c => c ≠ '='))
    (String.mk ((segment.data.dropWhile fun c => c ≠ '=').drop 1))

/-- The text of a string field, the empty string for another field. -/
def Field.text (f : Field) : String :=
  match f.Value with
  | FieldValue.str v => v
  | _ => ""

/-! ## Lemmas on the library functions -/

theorem splitChars_ne_nil (sep : Char) (l : List Char) : splitChars sep l ≠ [] := by
  cases l with
  | nil => simp [splitChars]
  | cons c cs =>
    simp only [splitChars]
    split
    · simp
    · split <;> simp

theorem splitChars_intercalate (sep : Char) (l : List Char) :
    List.intercalate [sep] (splitChars sep l) = l := by
  induction l with
  | nil => simp [splitChars, List.intercalate, List.intersperse]
  | cons c cs ih =>
    have hne := splitChars_ne_nil sep cs
    cases hsp : splitChars sep cs with
    | nil => exact absurd hsp hne
    | cons piece pieces =>
      rw [hsp] at ih
      by_cases h : c = sep
      · subst h
        simp only [splitChars, if_true, hsp]
        simp only [List.intercalate, List.intersperse] at ih ⊢
        simp [ih]
      · simp only [splitChars, if_neg h, hsp]
        cases pieces with
        | nil =>
          simp only [List.intercalate, List.intersperse] at ih ⊢
          simp at ih ⊢
          exact ih
        | cons q qs =>
          simp only [List.intercalate, List.intersperse] at ih ⊢
          simp at ih ⊢
          exact ih

theorem splitChars_no_sep (sep : Char) (l : List Char) :
    ∀ piece ∈ splitChars sep l, sep ∉ piece := by
  induction l with
  | nil => simp [splitChars]
  | cons c cs ih =>
    have hne := splitChars_ne_nil sep cs
    cases hsp : splitChars sep cs with
    | nil => exact absurd hsp hne
    | cons piece pieces =>
      rw [hsp] at ih
      by_cases h : c = sep
      · subst h
        simp only [splitChars, if_true, hsp]
        intro p hp
        rcases List.mem_cons.mp hp with e | hp
        · subst e; simp
        · exact ih p hp
      · simp only [splitChars, if_neg h, hsp]
        intro p hp
        rcases List.mem_cons.mp hp with e | hp
        · subst e
          have := ih piece (List.mem_cons_self _ _)
          simp only [List.mem_cons, not_or]
          exact ⟨fun e => h e.symm, this⟩
        · exact ih p (List.mem_cons_of_mem _ hp)

theorem Split_segments (s : String) :
    (∀ segment ∈ strings.Split s '&', '&' ∉ segment.data) ∧
    List.intercalate ['&'] ((strings.Split s '&').map String.data) = s.data := by
  constructor
  · intro segment hseg
    simp only [strings.Split, List.mem_map] at hseg
    obtain ⟨piece, hp, rfl⟩ := hseg
    exact splitChars_no_sep '&' s.data piece hp
  · have : (strings.Split s '&').map String.data = splitChars '&' s.data := by
      simp [strings.Split, List.map_map, Function.comp_def]
    rw [this, splitChars_intercalate]

theorem cutChars_eq (sep : Char) (l : List Char) :
    cutChars sep l =
      if sep ∈ l then
        some (l.takeWhile (fun c => c ≠ sep), (l.dropWhile (fun c => c ≠ sep)).drop 1)
      else none := by
  induction l with
  | nil => simp [cutChars]
  | cons c cs ih =>
    by_cases h : c = sep
    · subst h
      simp [cutChars, List.takeWhile, List.dropWhile]
    · have h2 : ¬ sep = c := fun e => h e.symm
      simp only [cutChars, h, if_false, ih, List.mem_cons, h2, false_or]
      by_cases hm : sep ∈ cs
      · simp [hm, List.takeWhile, List.dropWhile, h]
      · simp [hm]

theorem objectIDsLoop_eq (parts : List String) (fields : List Field) :
    objectIDsLoop parts fields =
      fields ++ parts.filterMap fun segment =>
        if '=' ∈ segment.data then
          some (zapString (String.mk (segment.data.takeWhile fun c => c ≠ '='))
            (String.mk ((segment.data.dropWhile fun c => c ≠ '=').drop 1)))
        else none := by
  induction parts generalizing fields with
  | nil => simp [objectIDsLoop]
  | cons seg rest ih =>
    by_cases hm : '=' ∈ seg.data
    · simp [objectIDsLoop, strings.SplitN2, cutChars_eq, hm, ih, List.filterMap_cons]
    · simp [objectIDsLoop, strings.SplitN2, cutChars_eq, hm, ih, List.filterMap_cons]

theorem objectIDsFields_eq (kt : ContextType) (ctx : Context) (s : String)
    (h : ctx.Value kt.ObjectIDs = some (GoValue.str s)) :
    objectIDsFields kt ctx = compositeSpec s := by
  simp [objectIDsFields, h, objectIDsLoop_eq, compositeSpec]

/-! ## Lemmas on the shape of the result -/

theorem leadingFields_eq (kt : ContextType) (ctx : Context) (now : Time) (fields : List Field) :
    leadingFields kt ctx fields = fields ++ emitAll ctx now (leadingSlots kt) := by
  simp [leadingFields, leadingSlots, emitAll, Slot.emit, List.append_assoc]

theorem trailingFields_eq (kt : ContextType) (ctx : Context) (now : Time) (fields : List Field) :
    trailingFields kt now ctx fields = fields ++ emitAll ctx now (trailingSlots kt) := by
  simp [trailingFields, trailingSlots, emitAll, Slot.emit, List.append_assoc]

theorem ginFields_fields (kt : ContextType) (now now2 : Time) (ctx : Context)
    (fields : List Field) :
    (ginFields kt now now2 ctx fields).fields = fields ++ ginAdded kt now now2 ctx := by
  unfold ginAdded ginFields
  cases ctx with
  | nil => simp
  | values bs => simp
  | gin c =>
    simp only
    split
    · split
      · split
        · split <;> split <;> simp
        · simp
      · simp
    · simp

theorem getFields_fields (kt : ContextType) (hostname : String) (now now2 : Time)
    (ctx : Context) (hctx : ctx ≠ Context.nil) :
    (getFields kt hostname now now2 ctx).fields =
      zapString "server" hostname :: (emitAll ctx now (leadingSlots kt)
        ++ objectIDsFields kt ctx ++ emitAll ctx now (trailingSlots kt)
        ++ ginAdded kt now now2 ctx) := by
  simp [getFields, hctx, ginFields_fields, leadingFields_eq kt ctx now,
    trailingFields_eq kt ctx now, List.append_assoc]

theorem getFields_nil (kt : ContextType) (hostname : String) (now now2 : Time) :
    getFields kt hostname now now2 Context.nil = ⟨[zapString "server" hostname], Context.nil⟩ := by
  simp [getFields]

theorem Slot.emit_shape (ctx : Context) (now : Time) (slot : Slot) :
    slot.emit ctx now = [] ∨ ∃ v, slot.emit ctx now = [⟨slot.name, v⟩] := by
  cases slot with
  | str key =>
    simp only [Slot.emit, stringField, Slot.name]
    split
    · split
      · exact Or.inr ⟨_, rfl⟩
      · exact Or.inl rfl
    · exact Or.inl rfl
  | uint key =>
    simp only [Slot.emit, uintField, Slot.name]
    split
    · exact Or.inr ⟨_, rfl⟩
    · exact Or.inl rfl
  | duration key =>
    simp only [Slot.emit, requestDurationField, Slot.name]
    split
    · split
      · exact Or.inr ⟨_, rfl⟩
      · exact Or.inl rfl
    · exact Or.inl rfl

theorem Slot.key_of_mem_emit (ctx : Context) (now : Time) (slot : Slot) (f : Field)
    (h : f ∈ slot.emit ctx now) : f.Key = slot.name := by
  rcases Slot.emit_shape ctx now slot with h0 | ⟨v, hv⟩
  · rw [h0] at h; simp at h
  · rw [hv] at h; simp at h; rw [h]

theorem mem_emitAll (ctx : Context) (now : Time) (slots : List Slot) (f : Field) :
    f ∈ emitAll ctx now slots ↔ ∃ slot ∈ slots, f ∈ slot.emit ctx now := by
  induction slots with
  | nil => simp [emitAll]
  | cons slot rest ih => simp [emitAll, ih]

theorem emitAll_keys_sublist (ctx : Context) (now : Time) (slots : List Slot) :
    ((emitAll ctx now slots).map Field.Key).Sublist (slots.map Slot.name) := by
  induction slots with
  | nil => simp [emitAll]
  | cons slot rest ih =>
    rcases Slot.emit_shape ctx now slot with h0 | ⟨v, hv⟩
    · simp only [emitAll, h0, List.nil_append, List.map_cons]
      exact List.Sublist.cons _ ih
    · simp only [emitAll, hv, List.singleton_append, List.map_cons]
      exact List.Sublist.cons₂ _ ih

theorem ginAdded_keys_sublist (kt : ContextType) (now now2 : Time) (ctx : Context) :
    ((ginAdded kt now now2 ctx).map Field.Key).Sublist ["contentLength", "segmentDuration"] := by
  unfold ginAdded ginFields
  cases ctx with
  | nil => simp
  | values bs => simp
  | gin c =>
    simp only
    split
    · split
      · split
        · split <;> split <;> simp [zapInt, zapDuration]
        · simp
      · simp
    · simp

theorem ginAdded_not_gin (kt : ContextType) (now now2 : Time) (ctx : Context)
    (h : ∀ c, ctx ≠ Context.gin c) : ginAdded kt now now2 ctx = [] := by
  unfold ginAdded ginFields
  cases ctx with
  | nil => simp
  | values bs => simp
  | gin c => exact absurd rfl (h c)

theorem getFields_keys_sublist (kt : ContextType) (hostname : String) (now now2 : Time)
    (ctx : Context) :
    (((getFields kt hostname now now2 ctx).fields).map Field.Key).Sublist
      (fieldNames kt ((objectIDsFields kt ctx).map Field.Key)) := by
  by_cases hctx : ctx = Context.nil
  · subst hctx
    simp [getFields_nil, fieldNames, zapString]
  · rw [getFields_fields kt hostname now now2 ctx hctx]
    simp only [fieldNames, List.map_cons, List.map_append, zapString]
    refine List.Sublist.cons₂ _ ?_
    exact ((((emitAll_keys_sublist ctx now (leadingSlots kt)).append
      (List.Sublist.refl _)).append (emitAll_keys_sublist ctx now (trailingSlots kt))).append
      (ginAdded_keys_sublist kt now now2 ctx))

theorem mem_getFields (kt : ContextType) (hostname : String) (now now2 : Time)
    (ctx : Context) (f : Field) (h : f ∈ (getFields kt hostname now now2 ctx).fields) :
    f = zapString "server" hostname ∨
      (∃ slot ∈ leadingSlots kt ++ trailingSlots kt, f ∈ slot.emit ctx now) ∨
      f ∈ objectIDsFields kt ctx ∨ f ∈ ginAdded kt now now2 ctx := by
  by_cases hctx : ctx = Context.nil
  · subst hctx
    simp [getFields_nil] at h
    exact Or.inl h
  · rw [getFields_fields kt hostname now now2 ctx hctx] at h
    simp only [List.mem_cons, List.mem_append, mem_emitAll] at h
    rcases h with h | ((((⟨slot, hs, hf⟩ | h) | ⟨slot, hs, hf⟩) | h))
    · exact Or.inl h
    · exact Or.inr (Or.inl ⟨slot, List.mem_append_left _ hs, hf⟩)
    · exact Or.inr (Or.inr (Or.inl h))
    · exact Or.inr (Or.inl ⟨slot, List.mem_append_right _ hs, hf⟩)
    · exact Or.inr (Or.inr (Or.inr h))

theorem mem_getFields_of_slot (kt : ContextType) (hostname : String) (now now2 : Time)
    (ctx : Context) (hctx : ctx ≠ Context.nil) (slot : Slot)
    (hs : slot ∈ leadingSlots kt ++ trailingSlots kt) (f : Field) (hf : f ∈ slot.emit ctx now) :
    f ∈ (getFields kt hostname now now2 ctx).fields := by
  rw [getFields_fields kt hostname now now2 ctx hctx]
  simp only [List.mem_cons, List.mem_append, mem_emitAll]
  rcases List.mem_append.mp hs with h | h
  · exact Or.inr (Or.inl (Or.inl (Or.inl ⟨slot, h, hf⟩)))
  · exact Or.inr (Or.inl (Or.inr ⟨slot, h, hf⟩))

theorem ne_nil_of_value (ctx : Context) (key : String) (v : GoValue)
    (h : ctx.Value key = some v) : ctx ≠ Context.nil := by
  intro e
  subst e
  simp [Context.Value] at h

theorem key_of_mem_ginAdded (kt : ContextType) (now now2 : Time) (ctx : Context) (f : Field)
    (h : f ∈ ginAdded kt now now2 ctx) :
    f.Key = "contentLength" ∨ f.Key = "segmentDuration" := by
  have hsub := (ginAdded_keys_sublist kt now now2 ctx).subset
  have hm : f.Key ∈ (ginAdded kt now now2 ctx).map Field.Key := List.mem_map_of_mem _ h
  have := hsub hm
  simpa using this

/-! ## Lemmas on the names of the vocabulary -/

theorem slotNames_sublist (kt : ContextType) :
    ((leadingSlots kt ++ trailingSlots kt).map Slot.name).Sublist (fieldNames kt []) := by
  simp only [fieldNames, List.map_append, List.append_nil]
  exact List.Sublist.cons _ (List.sublist_append_left _ _)

theorem slotNames_nodup (kt : ContextType) (hwf : kt.WellFormed) :
    ((leadingSlots kt ++ trailingSlots kt).map Slot.name).Nodup :=
  List.Nodup.sublist (slotNames_sublist kt) hwf

theorem slotName_ne_fixed (kt : ContextType) (hwf : kt.WellFormed) (slot : Slot)
    (hs : slot ∈ leadingSlots kt ++ trailingSlots kt) :
    slot.name ≠ "server" ∧ slot.name ≠ "contentLength" ∧ slot.name ≠ "segmentDuration" := by
  have hm : slot.name ∈ (leadingSlots kt ++ trailingSlots kt).map Slot.name :=
    List.mem_map_of_mem _ hs
  unfold ContextType.WellFormed fieldNames at hwf
  simp only [List.append_nil, ← List.map_append] at hwf
  rw [List.nodup_cons, List.nodup_append] at hwf
  obtain ⟨h1, -, -, h3⟩ := hwf
  refine ⟨?_, ?_, ?_⟩
  · intro e
    apply h1
    rw [← e]
    exact List.mem_append_left _ hm
  · intro e
    exact h3 hm (by rw [e]; simp)
  · intro e
    exact h3 hm (by rw [e]; simp)

theorem slot_eq_of_name (kt : ContextType) (hwf : kt.WellFormed) (s t : Slot)
    (hs : s ∈ leadingSlots kt ++ trailingSlots kt) (ht : t ∈ leadingSlots kt ++ trailingSlots kt)
    (h : s.name = t.name) : s = t :=
  List.inj_on_of_nodup_map (slotNames_nodup kt hwf) hs ht h

theorem filter_key_singleton (l : List Field) (hnd : (l.map Field.Key).Nodup) (f : Field)
    (hf : f ∈ l) : l.filter (fun g => decide (g.Key = f.Key)) = [f] := by
  induction l with
  | nil => simp at hf
  | cons g rest ih =>
    simp only [List.map_cons, List.nodup_cons] at hnd
    obtain ⟨hg, hrest⟩ := hnd
    rcases List.mem_cons.mp hf with e | hmem
    · subst e
      have : rest.filter (fun g => decide (g.Key = f.Key)) = [] := by
        rw [List.filter_eq_nil_iff]
        intro a ha hk
        apply hg
        have : a.Key = f.Key := by simpa using hk
        rw [← this]
        exact List.mem_map_of_mem _ ha
      simp [List.filter_cons, this]
    · have hne : g.Key ≠ f.Key := by
        intro e
        apply hg
        rw [e]
        exact List.mem_map_of_mem _ hmem
      simp [List.filter_cons, hne, ih hrest hmem]

theorem stringSlot_mem (kt : ContextType) (K : String) (hK : K ∈ stringKeys kt) :
    Slot.str K ∈ leadingSlots kt ++ trailingSlots kt := by
  simp only [stringKeys, List.mem_cons, List.mem_singleton, List.not_mem_nil, or_false] at hK
  simp only [leadingSlots, trailingSlots, List.cons_append, List.nil_append, List.mem_cons,
    Slot.str.injEq, List.mem_singleton, reduceCtorEq, false_or, or_false]
  tauto

theorem uintSlot_mem (kt : ContextType) (K : String) (hK : K ∈ uintKeys kt) :
    Slot.uint K ∈ leadingSlots kt ++ trailingSlots kt := by
  simp only [uintKeys, List.mem_cons, List.mem_singleton, List.not_mem_nil, or_false] at hK
  simp only [leadingSlots, trailingSlots, List.cons_append, List.nil_append, List.mem_cons,
    Slot.uint.injEq, List.mem_singleton, reduceCtorEq, false_or, or_false]
  tauto

/-! ## Lemmas on contexts that differ at one key -/

theorem lookup_cons_eq (k a : String) (b : GoValue) (es : List (String × GoValue)) :
    List.lookup k ((a, b) :: es) = if k = a then some b else List.lookup k es := by
  by_cases h : k = a
  · subst h
    simp [List.lookup]
  · have hb : (k == a) = false := by simpa using h
    simp [List.lookup, hb, h]

theorem unbind_cons (K a : String) (b : GoValue) (es : List (String × GoValue)) :
    unbind K ((a, b) :: es) = if a = K then unbind K es else (a, b) :: unbind K es := by
  by_cases h : a = K <;> simp [unbind, List.filter_cons, h]

theorem lookup_unbind_self (K : String) (bs : List (String × GoValue)) :
    (unbind K bs).lookup K = none := by
  induction bs with
  | nil => simp [unbind]
  | cons b rest ih =>
    obtain ⟨k, v⟩ := b
    rw [unbind_cons]
    by_cases h : k = K
    · rw [if_pos h]
      exact ih
    · have h2 : ¬ K = k := fun e => h e.symm
      rw [if_neg h, lookup_cons_eq, if_neg h2]
      exact ih

theorem lookup_unbind_of_ne (K k : String) (hk : k ≠ K) (bs : List (String × GoValue)) :
    (unbind K bs).lookup k = bs.lookup k := by
  induction bs with
  | nil => simp [unbind]
  | cons b rest ih =>
    obtain ⟨k2, v⟩ := b
    rw [unbind_cons, lookup_cons_eq]
    by_cases h : k2 = K
    · have h3 : ¬ k = k2 := fun e => hk (e.trans h)
      rw [if_pos h, if_neg h3]
      exact ih
    · rw [if_neg h, lookup_cons_eq, ih]

theorem stringField_congr (c1 c2 : Context) (K : String) (v : GoValue)
    (h1 : c1.Value K = some v) (h2 : c2.Value K = none)
    (hother : ∀ k, k ≠ K → c1.Value k = c2.Value k) (k : String)
    (hv : K = k → v.isStr = false) : stringField c1 k = stringField c2 k := by
  by_cases h : k = K
  · subst h
    have := hv rfl
    cases v <;> simp_all [stringField, GoValue.isStr]
  · simp [stringField, hother k h]

theorem uintField_congr (c1 c2 : Context) (K : String) (v : GoValue)
    (h1 : c1.Value K = some v) (h2 : c2.Value K = none)
    (hother : ∀ k, k ≠ K → c1.Value k = c2.Value k) (k : String)
    (hv : K = k → v.isUint = false) : uintField c1 k = uintField c2 k := by
  by_cases h : k = K
  · subst h
    have := hv rfl
    cases v <;> simp_all [uintField, GoValue.isUint]
  · simp [uintField, hother k h]

theorem requestDurationField_congr (c1 c2 : Context) (now : Time) (K : String) (v : GoValue)
    (h1 : c1.Value K = some v) (h2 : c2.Value K = none)
    (hother : ∀ k, k ≠ K → c1.Value k = c2.Value k) (k : String)
    (hv : K = k → v.isTime = false) :
    requestDurationField c1 now k = requestDurationField c2 now k := by
  by_cases h : k = K
  · subst h
    have := hv rfl
    cases v <;> simp_all [requestDurationField, GoValue.isTime]
  · simp [requestDurationField, hother k h]

theorem objectIDsFields_congr (kt : ContextType) (c1 c2 : Context) (K : String) (v : GoValue)
    (h1 : c1.Value K = some v) (h2 : c2.Value K = none)
    (hother : ∀ k, k ≠ K → c1.Value k = c2.Value k)
    (hv : K = kt.ObjectIDs → v.isStr = false) :
    objectIDsFields kt c1 = objectIDsFields kt c2 := by
  by_cases h : kt.ObjectIDs = K
  · have := hv h.symm
    rw [← h] at h1 h2
    cases v <;> simp_all [objectIDsFields, GoValue.isStr]
  · simp [objectIDsFields, hother _ h]

theorem emitAll_congr (c1 c2 : Context) (now : Time) (slots : List Slot)
    (h : ∀ slot ∈ slots, slot.emit c1 now = slot.emit c2 now) :
    emitAll c1 now slots = emitAll c2 now slots := by
  induction slots with
  | nil => rfl
  | cons slot rest ih =>
    simp only [emitAll]
    rw [h slot (List.mem_cons_self _ _), ih (fun s hs => h s (List.mem_cons_of_mem _ hs))]

theorem slots_congr (kt : ContextType) (c1 c2 : Context) (now : Time) (K : String) (v : GoValue)
    (h1 : c1.Value K = some v) (h2 : c2.Value K = none)
    (hother : ∀ k, k ≠ K → c1.Value k = c2.Value k) (hv : WrongType kt K v) :
    ∀ slot ∈ leadingSlots kt ++ trailingSlots kt, slot.emit c1 now = slot.emit c2 now := by
  obtain ⟨hs, hu, ht⟩ := hv
  intro slot hmem
  cases slot with
  | str key =>
    apply stringField_congr c1 c2 K v h1 h2 hother
    intro e
    apply hs
    left
    subst e
    simp only [leadingSlots, trailingSlots, List.cons_append, List.nil_append, List.mem_cons,
      Slot.str.injEq, List.mem_singleton, reduceCtorEq, false_or, or_false,
      List.not_mem_nil] at hmem
    simp only [stringKeys, List.mem_cons, List.mem_singleton, List.not_mem_nil, or_false]
    tauto
  | uint key =>
    apply uintField_congr c1 c2 K v h1 h2 hother
    intro e
    apply hu
    subst e
    simp only [leadingSlots, trailingSlots, List.cons_append, List.nil_append, List.mem_cons,
      Slot.uint.injEq, List.mem_singleton, reduceCtorEq, false_or, or_false,
      List.not_mem_nil] at hmem
    simp only [uintKeys, List.mem_cons, List.mem_singleton, List.not_mem_nil, or_false]
    tauto
  | duration key =>
    apply requestDurationField_congr c1 c2 now K v h1 h2 hother
    intro e
    apply ht
    left
    subst e
    simp only [leadingSlots, trailingSlots, List.cons_append, List.nil_append, List.mem_cons,
      Slot.duration.injEq, List.mem_singleton, reduceCtorEq, false_or, or_false,
      List.not_mem_nil] at hmem
    exact hmem

theorem getFields_congr (kt : ContextType) (hostname : String) (now now2 : Time)
    (c1 c2 : Context) (hn1 : c1 ≠ Context.nil) (hn2 : c2 ≠ Context.nil)
    (hslots : ∀ slot ∈ leadingSlots kt ++ trailingSlots kt, slot.emit c1 now = slot.emit c2 now)
    (hobj : objectIDsFields kt c1 = objectIDsFields kt c2)
    (hgin : ginAdded kt now now2 c1 = ginAdded kt now now2 c2) :
    (getFields kt hostname now now2 c1).fields = (getFields kt hostname now now2 c2).fields := by
  rw [getFields_fields kt hostname now now2 c1 hn1, getFields_fields kt hostname now now2 c2 hn2,
    hobj, hgin,
    emitAll_congr c1 c2 now (leadingSlots kt)
      (fun s hs => hslots s (List.mem_append_left _ hs)),
    emitAll_congr c1 c2 now (trailingSlots kt)
      (fun s hs => hslots s (List.mem_append_right _ hs))]

theorem ginAdded_gin (kt : ContextType) (now now2 : Time) (c : GinContext) :
    ginAdded kt now now2 (Context.gin c) =
      if c.Value "bulk" ≠ some (GoValue.bool true) then
        match c.Writer with
        | some writer =>
          match writer.Header with
          | some header =>
            (match strconv.Atoi (header.Get "Content-Length") with
              | some contentLength => [zapInt "contentLength" contentLength]
              | none => [])
            ++ (match c.Value kt.SegmentStart with
              | some (GoValue.time segmentStart) =>
                [zapDuration "segmentDuration" (now2.Sub segmentStart)]
              | _ => [])
          | none => []
        | none => []
      else [] := by
  unfold ginAdded ginFields
  simp only [Context.Value]
  split
  · split
    · split
      · split <;> split <;> simp
      · rfl
    · rfl
  · rfl

theorem ginAdded_congr (kt : ContextType) (now now2 : Time) (k1 k2 : List (String × GoValue))
    (writer : Option ResponseWriter) (K : String) (v : GoValue)
    (h1 : k1.lookup K = some v) (h2 : k2.lookup K = none)
    (hother : ∀ k, k ≠ K → k1.lookup k = k2.lookup k) (hbulk : K ≠ "bulk")
    (hv : K = kt.SegmentStart → v.isTime = false) :
    ginAdded kt now now2 (Context.gin ⟨k1, writer⟩)
      = ginAdded kt now now2 (Context.gin ⟨k2, writer⟩) := by
  have hb : k1.lookup "bulk" = k2.lookup "bulk" := hother "bulk" (Ne.symm hbulk)
  rw [ginAdded_gin, ginAdded_gin]
  simp only [GinContext.Value, hb]
  by_cases hK : kt.SegmentStart = K
  · have := hv hK.symm
    rw [← hK] at h1 h2
    rw [h1, h2]
    cases v <;> simp_all [GoValue.isTime]
  · rw [hother _ hK]

theorem requestDuration_filter_stringField (ctx : Context) (key : String) :
    (stringField ctx key).filter Field.isRequestDuration = [] := by
  unfold stringField
  split
  · split <;> simp [zapString, Field.isDuration, Field.isRequestDuration]
  · simp

theorem requestDuration_filter_uintField (ctx : Context) (key : String) :
    (uintField ctx key).filter Field.isRequestDuration = [] := by
  unfold uintField
  split <;> simp [zapUint, Field.isDuration, Field.isRequestDuration]

theorem requestDuration_filter_objectIDs (kt : ContextType) (ctx : Context) :
    (objectIDsFields kt ctx).filter Field.isRequestDuration = [] := by
  rw [List.filter_eq_nil_iff]
  intro f hf
  have hstr : ∃ n v, f = zapString n v := by
    unfold objectIDsFields at hf
    split at hf
    · rw [objectIDsLoop_eq] at hf
      simp only [List.nil_append, List.mem_filterMap] at hf
      obtain ⟨seg, -, hseg⟩ := hf
      split at hseg
      · exact ⟨_, _, (Option.some.inj hseg).symm⟩
      · simp at hseg
    · simp at hf
  obtain ⟨n, v, rfl⟩ := hstr
  simp [zapString, Field.isDuration, Field.isRequestDuration]

theorem requestDuration_filter_ginAdded (kt : ContextType) (now now2 : Time) (ctx : Context) :
    (ginAdded kt now now2 ctx).filter Field.isRequestDuration = [] := by
  rw [List.filter_eq_nil_iff]
  intro f hf
  rcases key_of_mem_ginAdded kt now now2 ctx f hf with e | e <;>
    simp [e, Field.isRequestDuration]

/-! ## Lemmas on the augmentation and on the keys read -/

theorem getFields_fields_all (kt : ContextType) (hostname : String) (now now2 : Time)
    (ctx : Context) :
    (getFields kt hostname now now2 ctx).fields =
      zapString "server" hostname :: (emitAll ctx now (leadingSlots kt)
        ++ objectIDsFields kt ctx ++ emitAll ctx now (trailingSlots kt)
        ++ ginAdded kt now now2 ctx) := by
  by_cases hctx : ctx = Context.nil
  · subst hctx
    simp [getFields_nil, leadingSlots, trailingSlots, emitAll, Slot.emit, stringField, uintField,
      requestDurationField, objectIDsFields, Context.Value, ginAdded, ginFields]
  · exact getFields_fields kt hostname now now2 ctx hctx

theorem getFields_ctx_of_not_gin (kt : ContextType) (hostname : String) (now now2 : Time)
    (ctx : Context) (h : ∀ c, ctx ≠ Context.gin c) :
    (getFields kt hostname now now2 ctx).ctx = ctx := by
  cases ctx with
  | nil => simp [getFields]
  | values bs => simp [getFields, ginFields]
  | gin c => exact absurd rfl (h c)

theorem getFields_ctx_of_bulk (kt : ContextType) (hostname : String) (now now2 : Time)
    (c : GinContext) (h : c.Value "bulk" = some (GoValue.bool true)) :
    (getFields kt hostname now now2 (Context.gin c)).ctx = Context.gin c := by
  simp [getFields, ginFields, h]

theorem ginAdded_of_bulk (kt : ContextType) (now now2 : Time) (c : GinContext)
    (h : c.Value "bulk" = some (GoValue.bool true)) :
    ginAdded kt now now2 (Context.gin c) = [] := by
  rw [ginAdded_gin]
  simp [h]

theorem objectIDsFields_strings (kt : ContextType) (ctx : Context) (f : Field)
    (hf : f ∈ objectIDsFields kt ctx) : ∃ n v, f = zapString n v := by
  unfold objectIDsFields at hf
  split at hf
  · rw [objectIDsLoop_eq] at hf
    simp only [List.nil_append, List.mem_filterMap] at hf
    obtain ⟨seg, -, hseg⟩ := hf
    split at hseg
    · exact ⟨_, _, (Option.some.inj hseg).symm⟩
    · simp at hseg
  · simp at hf

theorem Slot.emit_not_augmentation (ctx : Context) (now : Time) (slot : Slot) (f : Field)
    (hf : f ∈ slot.emit ctx now) : f.isAugmentation = false := by
  cases slot with
  | str key =>
    simp only [Slot.emit, stringField] at hf
    split at hf
    · split at hf
      · simp only [List.mem_singleton] at hf
        subst hf
        rfl
      · simp at hf
    · simp at hf
  | uint key =>
    simp only [Slot.emit, uintField] at hf
    split at hf
    · simp only [List.mem_singleton] at hf
      subst hf
      rfl
    · simp at hf
  | duration key =>
    simp only [Slot.emit, requestDurationField] at hf
    split at hf
    · split at hf
      · simp only [List.mem_singleton] at hf
        subst hf
        simp [Field.isAugmentation, zapDuration]
      · simp at hf
    · simp at hf

theorem base_not_augmentation (kt : ContextType) (hostname : String) (now : Time)
    (ctx : Context) (f : Field)
    (hf : f ∈ zapString "server" hostname :: (emitAll ctx now (leadingSlots kt)
        ++ objectIDsFields kt ctx ++ emitAll ctx now (trailingSlots kt))) :
    f.isAugmentation = false := by
  simp only [List.mem_cons, List.mem_append, mem_emitAll] at hf
  rcases hf with h | ((⟨slot, -, hs⟩ | h) | ⟨slot, -, hs⟩)
  · subst h
    rfl
  · exact Slot.emit_not_augmentation ctx now slot f hs
  · obtain ⟨n, v, rfl⟩ := objectIDsFields_strings kt ctx f h
    rfl
  · exact Slot.emit_not_augmentation ctx now slot f hs

theorem key_mem_of_stringSlot (kt : ContextType) (key : String)
    (hmem : Slot.str key ∈ leadingSlots kt ++ trailingSlots kt) : key ∈ stringKeys kt := by
  simp only [leadingSlots, trailingSlots, List.cons_append, List.nil_append, List.mem_cons,
    Slot.str.injEq, List.mem_singleton, reduceCtorEq, false_or, or_false,
    List.not_mem_nil] at hmem
  simp only [stringKeys, List.mem_cons, List.mem_singleton, List.not_mem_nil, or_false]
  tauto

theorem key_mem_of_uintSlot (kt : ContextType) (key : String)
    (hmem : Slot.uint key ∈ leadingSlots kt ++ trailingSlots kt) : key ∈ uintKeys kt := by
  simp only [leadingSlots, trailingSlots, List.cons_append, List.nil_append, List.mem_cons,
    Slot.uint.injEq, List.mem_singleton, reduceCtorEq, false_or, or_false,
    List.not_mem_nil] at hmem
  simp only [uintKeys, List.mem_cons, List.mem_singleton, List.not_mem_nil, or_false]
  tauto

theorem key_eq_of_durationSlot (kt : ContextType) (key : String)
    (hmem : Slot.duration key ∈ leadingSlots kt ++ trailingSlots kt) :
    key = kt.RequestStart := by
  simp only [leadingSlots, trailingSlots, List.cons_append, List.nil_append, List.mem_cons,
    Slot.duration.injEq, List.mem_singleton, reduceCtorEq, false_or, or_false,
    List.not_mem_nil] at hmem
  exact hmem

theorem slot_emit_of_agree (kt : ContextType) (c1 c2 : Context) (now : Time)
    (hagree : ∀ k ∈ readKeys kt, c1.Value k = c2.Value k) (slot : Slot)
    (hmem : slot ∈ leadingSlots kt ++ trailingSlots kt) :
    slot.emit c1 now = slot.emit c2 now := by
  cases slot with
  | str key =>
    have hk : key ∈ readKeys kt :=
      List.mem_append_left _ (List.mem_append_left _ (key_mem_of_stringSlot kt key hmem))
    simp [Slot.emit, stringField, hagree key hk]
  | uint key =>
    have hk : key ∈ readKeys kt :=
      List.mem_append_left _ (List.mem_append_right _ (key_mem_of_uintSlot kt key hmem))
    simp [Slot.emit, uintField, hagree key hk]
  | duration key =>
    have hk : key ∈ readKeys kt := by
      rw [key_eq_of_durationSlot kt key hmem]
      exact List.mem_append_right _ (by simp)
    simp [Slot.emit, requestDurationField, hagree key hk]

theorem fields_eq_of_agree (kt : ContextType) (hostname : String) (now now2 now3 : Time)
    (c1 c2 : Context) (h1 : ∀ g, c1 ≠ Context.gin g) (h2 : ∀ g, c2 ≠ Context.gin g)
    (hagree : ∀ k ∈ readKeys kt, c1.Value k = c2.Value k) :
    (getFields kt hostname now now2 c1).fields = (getFields kt hostname now now3 c2).fields := by
  have hobj : objectIDsFields kt c1 = objectIDsFields kt c2 := by
    have hk : kt.ObjectIDs ∈ readKeys kt := List.mem_append_right _ (by simp)
    simp [objectIDsFields, hagree _ hk]
  rw [getFields_fields_all, getFields_fields_all, ginAdded_not_gin kt now now2 c1 h1,
    ginAdded_not_gin kt now now3 c2 h2, hobj,
    emitAll_congr c1 c2 now (leadingSlots kt)
      (fun s hs => slot_emit_of_agree kt c1 c2 now hagree s (List.mem_append_left _ hs)),
    emitAll_congr c1 c2 now (trailingSlots kt)
      (fun s hs => slot_emit_of_agree kt c1 c2 now hagree s (List.mem_append_right _ hs))]

theorem lookup_perm (k : String) (bs1 bs2 : List (String × GoValue))
    (hnd : (bs1.map Prod.fst).Nodup) (hp : bs1.Perm bs2) :
    List.lookup k bs1 = List.lookup k bs2 := by
  induction hp with
  | nil => rfl
  | cons x _ ih =>
    obtain ⟨a, b⟩ := x
    simp only [List.map_cons, List.nodup_cons] at hnd
    rw [lookup_cons_eq, lookup_cons_eq, ih hnd.2]
  | swap x y l =>
    obtain ⟨a, b⟩ := x
    obtain ⟨c, d⟩ := y
    simp only [List.map_cons, List.nodup_cons, List.mem_cons, not_or] at hnd
    have hne : c ≠ a := hnd.1.1
    rw [lookup_cons_eq, lookup_cons_eq, lookup_cons_eq, lookup_cons_eq]
    by_cases h1 : k = c
    · have h2 : ¬ k = a := fun e => hne (h1.symm.trans e)
      simp [h1, h2, hne]
    · simp [h1]
  | trans p1 _ ih1 ih2 =>
    have hnd2 := (List.Perm.nodup_iff (List.Perm.map Prod.fst p1)).mp hnd
    rw [ih1 hnd, ih2 hnd2]

theorem fieldNames_eq_plainOrder (kt : ContextType) (objectNames : List String) :
    fieldNames kt objectNames
      = plainOrder kt objectNames ++ ["contentLength", "segmentDuration"] := by
  simp [fieldNames, plainOrder, leadingSlots, trailingSlots, Slot.name]

theorem count_after_cut (c : Char) (l : List Char) :
    ((l.dropWhile fun x => x ≠ c).drop 1).count c = l.count c - 1 := by
  induction l with
  | nil => simp
  | cons x xs ih =>
    by_cases h : x = c
    · subst h
      simp [List.dropWhile]
    · have h2 : ¬ (x == c) = true := by simpa using h
      simp only [List.dropWhile, ne_eq, h, not_false_eq_true, decide_True]
      rw [ih, List.count_cons, if_neg h2, Nat.add_zero]

/-! ## A miss of a type assertion -/

/-- A miss of a type assertion is an absence: when `v` is not of the type
`getFields` asserts at the key `K`, a chain of bindings with `K` bound to `v` on
top gives the same field list as the chain with every binding of `K` removed;
so does a `*gin.Context` whose `Keys` bind `K` to `v`, for a key other than the
flag `bulk`. -/
theorem wrong_type_as_absent (kt : ContextType) (hostname : String) (now now2 : Time)
    (K : String) (v : GoValue) (hv : WrongType kt K v) :
    (∀ bs : List (String × GoValue),
      (getFields kt hostname now now2 (Context.values ((K, v) :: bs))).fields
        = (getFields kt hostname now now2 (Context.values (unbind K bs))).fields) ∧
    (K ≠ "bulk" → ∀ (keys : List (String × GoValue)) (writer : Option ResponseWriter),
      (getFields kt hostname now now2 (Context.gin ⟨(K, v) :: keys, writer⟩)).fields
        = (getFields kt hostname now now2 (Context.gin ⟨unbind K keys, writer⟩)).fields) := by
  have hl1 : ∀ bs : List (String × GoValue), List.lookup K ((K, v) :: bs) = some v := by
    intro bs
    rw [lookup_cons_eq, if_pos rfl]
  have hl3 : ∀ (bs : List (String × GoValue)) (k : String), k ≠ K →
      List.lookup k ((K, v) :: bs) = List.lookup k (unbind K bs) := by
    intro bs k hk
    rw [lookup_cons_eq, if_neg hk, lookup_unbind_of_ne K k hk]
  refine ⟨?_, ?_⟩
  · intro bs
    have h1 : (Context.values ((K, v) :: bs)).Value K = some v := hl1 bs
    have h2 : (Context.values (unbind K bs)).Value K = none := lookup_unbind_self K bs
    have h3 : ∀ k, k ≠ K →
        (Context.values ((K, v) :: bs)).Value k = (Context.values (unbind K bs)).Value k :=
      hl3 bs
    apply getFields_congr kt hostname now now2 _ _ (by simp) (by simp)
      (slots_congr kt _ _ now K v h1 h2 h3 hv)
      (objectIDsFields_congr kt _ _ K v h1 h2 h3 (fun e => hv.1 (Or.inr e)))
    rw [ginAdded_not_gin _ _ _ _ (by simp), ginAdded_not_gin _ _ _ _ (by simp)]
  · intro hbulk keys writer
    have h1 : (Context.gin ⟨(K, v) :: keys, writer⟩).Value K = some v := hl1 keys
    have h2 : (Context.gin ⟨unbind K keys, writer⟩).Value K = none := lookup_unbind_self K keys
    have h3 : ∀ k, k ≠ K → (Context.gin ⟨(K, v) :: keys, writer⟩).Value k
        = (Context.gin ⟨unbind K keys, writer⟩).Value k := hl3 keys
    exact getFields_congr kt hostname now now2 _ _ (by simp) (by simp)
      (slots_congr kt _ _ now K v h1 h2 h3 hv)
      (objectIDsFields_congr kt _ _ K v h1 h2 h3 (fun e => hv.1 (Or.inr e)))
      (ginAdded_congr kt now now2 _ _ writer K v (hl1 keys) (lookup_unbind_self K keys)
        (hl3 keys) hbulk (fun e => hv.2.2 (Or.inr e)))

/-- The lemma `wrong_type_as_absent` at a concrete input: a signed integer
bound to `Line` on top of a chain that binds `Line` to a `uint`. -/
theorem wrong_type_as_absent_example :
    WrongType specKeys "line" (GoValue.int 5) ∧
    (getFields specKeys "host" ⟨7⟩ ⟨8⟩
        (Context.values [("line", GoValue.int 5), ("line", GoValue.uint 3),
          ("accountId", GoValue.str "u1")])).fields
      = (getFields specKeys "host" ⟨7⟩ ⟨8⟩
          (Context.values (unbind "line" [("line", GoValue.uint 3),
            ("accountId", GoValue.str "u1")]))).fields :=
  ⟨⟨fun _ => rfl, fun _ => rfl, fun _ => rfl⟩,
   (wrong_type_as_absent specKeys "host" ⟨7⟩ ⟨8⟩ "line" (GoValue.int 5)
      ⟨fun _ => rfl, fun _ => rfl, fun _ => rfl⟩).1
      [("line", GoValue.uint 3), ("accountId", GoValue.str "u1")]⟩

/-! ## The claims -/

/-- C1. On the nil context `getFields` returns the single string field
`server = hostname`, whatever the hostname; and each of `Verbose`, `Info`,
`Warn`, `Error` and `Fatal`, called with the nil context, gives the primary
logger one record, at its severity, whose only field is that one. -/
theorem C1_nil_context_only_server (kt : ContextType) (hostname : String) (now now2 : Time)
    (data : String) (syncErr : Option String) :
    (getFields kt hostname now now2 Context.nil).fields = [zapString "server" hostname] ∧
    logged (Verbose kt hostname now now2 Context.nil data).events
      = [(Sink.logger, Level.Debug, data, [zapString "server" hostname])] ∧
    logged (Info kt hostname now now2 Context.nil data).events
      = [(Sink.logger, Level.Info, data, [zapString "server" hostname])] ∧
    logged (Warn kt hostname now now2 Context.nil data).events
      = [(Sink.logger, Level.Warn, data, [zapString "server" hostname])] ∧
    logged (Error kt hostname now now2 Context.nil data).events
      = [(Sink.logger, Level.Error, data, [zapString "server" hostname])] ∧
    logged (Fatal kt hostname now now2 Context.nil data syncErr).events
      = [(Sink.logger, Level.Fatal, data, [zapString "server" hostname])] := by
  refine ⟨by simp [getFields_nil], ?_, ?_, ?_, ?_, ?_⟩
  · simp [Verbose, getFields_nil, logged]
  · simp [Info, getFields_nil, logged]
  · simp [Warn, getFields_nil, logged]
  · simp [Error, getFields_nil, logged]
  · cases syncErr <;> simp [Fatal, getFields_nil, zapFatal, untilExit, logged]

/-- C2. Let the constants of `types/context` be well formed and let the context
not bind the composite key `ObjectIDs`. For every string-typed key `K` of the
vocabulary: if the context binds `K` to a non-empty string `v`, the fields named
`K` in the result of `getFields` are exactly the one string field `K = v`; if
`K` is unbound or bound to the empty string, no field of the result is named
`K`. -/
theorem C2_string_key_emitted_once (kt : ContextType) (hwf : kt.WellFormed)
    (hostname : String) (now now2 : Time) (ctx : Context)
    (hobj : ctx.Value kt.ObjectIDs = none) (K : String) (hK : K ∈ stringKeys kt) :
    (∀ v, ctx.Value K = some (GoValue.str v) → v ≠ "" →
      (getFields kt hostname now now2 ctx).fields.filter (fun f => decide (f.Key = K))
        = [zapString K v]) ∧
    ((ctx.Value K = none ∨ ctx.Value K = some (GoValue.str "")) →
      ∀ f ∈ (getFields kt hostname now now2 ctx).fields, f.Key ≠ K) := by
  have hslot := stringSlot_mem kt K hK
  constructor
  · intro v hv hne
    have hctx := ne_nil_of_value ctx K _ hv
    have hmem : zapString K v ∈ (getFields kt hostname now now2 ctx).fields := by
      apply mem_getFields_of_slot kt hostname now now2 ctx hctx (Slot.str K) hslot
      simp [Slot.emit, stringField, hv, hne]
    have hnd : ((getFields kt hostname now now2 ctx).fields.map Field.Key).Nodup := by
      have hsub := getFields_keys_sublist kt hostname now now2 ctx
      have hno : objectIDsFields kt ctx = [] := by simp [objectIDsFields, hobj]
      rw [hno] at hsub
      exact List.Nodup.sublist hsub hwf
    exact filter_key_singleton _ hnd (zapString K v) hmem
  · intro habs f hf hkey
    rcases mem_getFields kt hostname now now2 ctx f hf with h | ⟨slot, hs, hfs⟩ | h | h
    · have := (slotName_ne_fixed kt hwf (Slot.str K) hslot).1
      apply this
      rw [h] at hkey
      simpa [Slot.name, zapString] using hkey.symm
    · have hname : slot.name = (Slot.str K).name := by
        rw [← Slot.key_of_mem_emit ctx now slot f hfs, hkey]; rfl
      have hslotEq := slot_eq_of_name kt hwf slot (Slot.str K) hs hslot hname
      rw [hslotEq] at hfs
      rcases habs with h0 | h0 <;> simp [Slot.emit, stringField, h0] at hfs
    · simp [objectIDsFields, hobj] at h
    · have hfix := slotName_ne_fixed kt hwf (Slot.str K) hslot
      rcases key_of_mem_ginAdded kt now now2 ctx f h with e | e
      · exact hfix.2.1 (by rw [← e, hkey]; rfl)
      · exact hfix.2.2 (by rw [← e, hkey]; rfl)

/-- C2, at a concrete input: the spec's constants, a context binding
`accountId` and an empty `requestId`. -/
theorem C2_string_key_emitted_once_witness :
    specKeys.WellFormed ∧
    (getFields specKeys "host" ⟨7⟩ ⟨8⟩
        (Context.values [("accountId", GoValue.str "u1"), ("requestId", GoValue.str "")])).fields.filter
      (fun f => decide (f.Key = "accountId")) = [zapString "accountId" "u1"] :=
  ⟨by decide,
   (C2_string_key_emitted_once specKeys (by decide) "host" ⟨7⟩ ⟨8⟩
      (Context.values [("accountId", GoValue.str "u1"), ("requestId", GoValue.str "")])
      (by decide) "accountId" (by decide)).1 "u1" (by decide) (by decide)⟩

/-- C3. When the context binds `ObjectIDs` to a string `s`, the block "Object
IDs" of `getFields` appends exactly the decomposition the specification words:
in segment order, one string field per `&`-separated segment that contains a
`=`, named by the text before the first `=` and valued by the text after it, and
nothing for a segment without `=`; the result of `getFields` carries these
fields between those of the blocks before and those of the blocks after. The
segments are those of `strings.Split`: none contains a `&`, and joined by `&`
they give `s` back. The value `a=1&b=2&bad&c=3` contributes `a=1`, `b=2`,
`c=3`. -/
theorem C3_composite_decomposition (kt : ContextType) (hostname : String) (now now2 : Time)
    (ctx : Context) (s : String) (h : ctx.Value kt.ObjectIDs = some (GoValue.str s)) :
    objectIDsFields kt ctx = compositeSpec s ∧
    (getFields kt hostname now now2 ctx).fields =
      zapString "server" hostname :: (emitAll ctx now (leadingSlots kt)
        ++ compositeSpec s ++ emitAll ctx now (trailingSlots kt)
        ++ ginAdded kt now now2 ctx) ∧
    (∀ segment ∈ strings.Split s '&', '&' ∉ segment.data) ∧
    List.intercalate ['&'] ((strings.Split s '&').map String.data) = s.data ∧
    compositeSpec "a=1&b=2&bad&c=3" = [zapString "a" "1", zapString "b" "2", zapString "c" "3"] := by
  refine ⟨objectIDsFields_eq kt ctx s h, ?_, (Split_segments s).1, (Split_segments s).2,
    by decide⟩
  rw [getFields_fields kt hostname now now2 ctx (ne_nil_of_value ctx _ _ h),
    objectIDsFields_eq kt ctx s h]

/-- C3, at a concrete input: the spec's constants and the composite value of
the specification's example. -/
theorem C3_composite_decomposition_witness :
    (Context.values [("objectIds", GoValue.str "a=1&b=2&bad&c=3")]).Value specKeys.ObjectIDs
        = some (GoValue.str "a=1&b=2&bad&c=3") ∧
    objectIDsFields specKeys (Context.values [("objectIds", GoValue.str "a=1&b=2&bad&c=3")])
        = compositeSpec "a=1&b=2&bad&c=3" :=
  ⟨by decide,
   (C3_composite_decomposition specKeys "host" ⟨7⟩ ⟨8⟩
      (Context.values [("objectIds", GoValue.str "a=1&b=2&bad&c=3")]) "a=1&b=2&bad&c=3"
      (by decide)).1⟩

/-- C4, as stated, fails: the composite value `a=1&a=2` puts two fields named
`a` in one record. -/
theorem C4_counterexample :
    ¬ ((getFields specKeys "host" ⟨7⟩ ⟨8⟩
        (Context.values [("objectIds", GoValue.str "a=1&a=2")])).fields.map Field.Key).Nodup := by
  decide

/-- C4, amended. Whenever the names at stake are pairwise different (these are
`server`, the names of the keys of the vocabulary, `requestDuration`,
`contentLength`, `segmentDuration` and the names read out of the segments of
the composite value bound to `ObjectIDs`), no two fields of the result of
`getFields` have the same name. -/
theorem C4_unique_names_amended (kt : ContextType) (hostname : String) (now now2 : Time)
    (ctx : Context)
    (h : (fieldNames kt ((objectIDsFields kt ctx).map Field.Key)).Nodup) :
    ((getFields kt hostname now now2 ctx).fields.map Field.Key).Nodup :=
  List.Nodup.sublist (getFields_keys_sublist kt hostname now now2 ctx) h

/-- C4 amended, at a concrete input: the spec's constants and a composite value
with two different names. -/
theorem C4_unique_names_amended_witness :
    (fieldNames specKeys ((objectIDsFields specKeys
        (Context.values [("objectIds", GoValue.str "a=1&b=2"), ("accountId", GoValue.str "u1")])).map
          Field.Key)).Nodup ∧
    ((getFields specKeys "host" ⟨7⟩ ⟨8⟩
        (Context.values [("objectIds", GoValue.str "a=1&b=2"),
          ("accountId", GoValue.str "u1")])).fields.map Field.Key).Nodup :=
  ⟨by decide,
   C4_unique_names_amended specKeys "host" ⟨7⟩ ⟨8⟩
     (Context.values [("objectIds", GoValue.str "a=1&b=2"), ("accountId", GoValue.str "u1")])
     (by decide)⟩

/-- C5, as stated, fails: with an empty hostname the field `server`, which is
appended whatever the hostname, has the empty string as its value; and with
`ObjectIDs` bound to `a=` the result holds the string field `a` with the empty
string as its value. -/
theorem C5_counterexample :
    (getFields specKeys "" ⟨7⟩ ⟨8⟩ Context.nil).fields = [zapString "server" ""] ∧
    (getFields specKeys "host" ⟨7⟩ ⟨8⟩
        (Context.values [("objectIds", GoValue.str "a=")])).fields
      = [zapString "server" "host", zapString "a" ""] := by
  decide

/-- C5, amended. A string field of the result of `getFields` whose value is the
empty string is the field `server`, the hostname being empty, or a field read
out of a segment of the composite value bound to `ObjectIDs`: the blocks of the
string-typed keys never append an empty value. -/
theorem C5_empty_values_amended (kt : ContextType) (hostname : String) (now now2 : Time)
    (ctx : Context) (f : Field) (hf : f ∈ (getFields kt hostname now now2 ctx).fields)
    (hempty : f.Value = FieldValue.str "") :
    (f = zapString "server" hostname ∧ hostname = "") ∨ f ∈ objectIDsFields kt ctx := by
  rcases mem_getFields kt hostname now now2 ctx f hf with h | ⟨slot, hs, hfs⟩ | h | h
  · left
    refine ⟨h, ?_⟩
    rw [h] at hempty
    simpa [zapString] using hempty
  · exfalso
    cases slot with
    | str key =>
      simp only [Slot.emit, stringField] at hfs
      split at hfs
      · split at hfs
        · rename_i v _ hv
          simp only [List.mem_singleton] at hfs
          rw [hfs] at hempty
          simp only [zapString, FieldValue.str.injEq] at hempty
          exact hv hempty
        · simp at hfs
      · simp at hfs
    | uint key =>
      simp only [Slot.emit, uintField] at hfs
      split at hfs
      · simp only [List.mem_singleton] at hfs
        rw [hfs] at hempty
        simp [zapUint] at hempty
      · simp at hfs
    | duration key =>
      simp only [Slot.emit, requestDurationField] at hfs
      split at hfs
      · split at hfs
        · simp only [List.mem_singleton] at hfs
          rw [hfs] at hempty
          simp [zapDuration] at hempty
        · simp at hfs
      · simp at hfs
  · exact Or.inr h
  · exfalso
    cases ctx with
    | nil => simp [ginAdded, ginFields] at h
    | values bs => simp [ginAdded, ginFields] at h
    | gin c =>
      rw [ginAdded_gin] at h
      split at h
      · split at h
        · split at h
          · simp only [List.mem_append] at h
            rcases h with h | h
            · split at h
              · simp only [List.mem_singleton] at h
                rw [h] at hempty
                simp [zapInt] at hempty
              · simp at h
            · split at h
              · simp only [List.mem_singleton] at h
                rw [h] at hempty
                simp [zapDuration] at hempty
              · simp at h
          · simp at h
        · simp at h
      · simp at h

/-- C5 amended, at a concrete input: an empty hostname and the nil context. -/
theorem C5_empty_values_amended_witness :
    zapString "server" "" ∈ (getFields specKeys "" ⟨7⟩ ⟨8⟩ Context.nil).fields ∧
    ((zapString "server" "" = zapString "server" "" ∧ "" = "") ∨
      zapString "server" "" ∈ objectIDsFields specKeys Context.nil) :=
  ⟨by decide,
   C5_empty_values_amended specKeys "" ⟨7⟩ ⟨8⟩ Context.nil (zapString "server" "")
     (by decide) rfl⟩

/-- C6, as stated, fails: a `*gin.Context` that binds exactly the four keys of
the scenario and whose response header has `Content-Length: 5` gives `Info` a
record of seven fields, the seventh being `contentLength = 5`. -/
theorem C6_counterexample :
    logged (Info specKeys "host" ⟨7⟩ ⟨8⟩
        (Context.gin ⟨[("accountId", GoValue.str "u1"), ("requestIp", GoValue.str "127.0.0.1"),
            ("requestUrl", GoValue.str "https://example.com"),
            ("objectIds", GoValue.str "tenantid=T1&workspaceid=W1")],
          some ⟨some [("Content-Length", ["5"])]⟩⟩) "msg").events
      = [(Sink.logger, Level.Info, "msg",
          [zapString "server" "host", zapString "accountId" "u1", zapString "tenantid" "T1",
           zapString "workspaceid" "W1", zapString "requestIp" "127.0.0.1",
           zapString "requestUrl" "https://example.com", zapInt "contentLength" 5])] := by
  decide

/-- C6, amended. For every context that binds `AccountID`, `RequestIP` and
`RequestURL` to non-empty strings and `ObjectIDs` to
`tenantid=T1&workspaceid=W1`, and binds no other key that `getFields` reads,
the record `Info` gives the primary logger holds `server`, the `AccountID`
field, `tenantid = T1`, `workspaceid = W1`, the `RequestIP` field and the
`RequestURL` field, followed by what the block "Gin-specific logging" adds: that
is nothing, or the one integer field `contentLength`, and it is nothing when
the context is not a `*gin.Context`. -/
theorem C6_scenario_amended (kt : ContextType) (hostname : String) (now now2 : Time)
    (ctx : Context) (a ip url msg : String)
    (ha : ctx.Value kt.AccountID = some (GoValue.str a)) (ha0 : a ≠ "")
    (hip : ctx.Value kt.RequestIP = some (GoValue.str ip)) (hip0 : ip ≠ "")
    (hurl : ctx.Value kt.RequestURL = some (GoValue.str url)) (hurl0 : url ≠ "")
    (hobj : ctx.Value kt.ObjectIDs = some (GoValue.str "tenantid=T1&workspaceid=W1"))
    (hrest : ∀ k ∈ scenarioUnbound kt, ctx.Value k = none) :
    logged (Info kt hostname now now2 ctx msg).events
      = [(Sink.logger, Level.Info, msg,
          [zapString "server" hostname, zapString kt.AccountID a, zapString "tenantid" "T1",
           zapString "workspaceid" "W1", zapString kt.RequestIP ip, zapString kt.RequestURL url]
            ++ ginAdded kt now now2 ctx)] ∧
    (ginAdded kt now now2 ctx = [] ∨ ∃ n, ginAdded kt now now2 ctx = [zapInt "contentLength" n]) ∧
    ((∀ c, ctx ≠ Context.gin c) → ginAdded kt now now2 ctx = []) := by
  have hctx := ne_nil_of_value ctx _ _ ha
  have hspec : compositeSpec "tenantid=T1&workspaceid=W1"
      = [zapString "tenantid" "T1", zapString "workspaceid" "W1"] := by decide
  simp only [scenarioUnbound, List.mem_cons, List.mem_singleton, List.not_mem_nil, or_false,
    forall_eq_or_imp, forall_eq] at hrest
  obtain ⟨h1, h2, h3, h4, h5, h6, h7, h8, h9, h10, h11, h12, h13, h14, h15, h16, h17, h18,
    h19, h20, h21, h22, h23, h24, h25, h26⟩ := hrest
  refine ⟨?_, ?_, ginAdded_not_gin kt now now2 ctx⟩
  · simp [Info, logged, getFields_fields kt hostname now now2 ctx hctx,
      objectIDsFields_eq kt ctx _ hobj, hspec, leadingSlots, trailingSlots, emitAll, Slot.emit,
      stringField, uintField, requestDurationField, ha, ha0, hip, hip0, hurl, hurl0,
      h1, h2, h3, h4, h5, h6, h7, h8, h9, h10, h11, h12, h13, h14, h15, h16, h17, h18,
      h19, h20, h21, h22, h23, h24, h25]
  · unfold ginAdded ginFields
    cases ctx with
    | nil => simp
    | values bs => simp
    | gin c =>
      simp only [h26]
      split
      · split
        · split
          · split <;> simp
          · simp
        · simp
      · simp

/-- C6 amended, at a concrete input: the spec's constants and a chain of
`context.WithValue` bindings as in `TestLog`. -/
theorem C6_scenario_amended_witness :
    logged (Info specKeys "host" ⟨7⟩ ⟨8⟩
        (Context.values [("accountId", GoValue.str "u1"), ("requestIp", GoValue.str "127.0.0.1"),
            ("requestUrl", GoValue.str "https://example.com"),
            ("objectIds", GoValue.str "tenantid=T1&workspaceid=W1")]) "msg").events
      = [(Sink.logger, Level.Info, "msg",
          [zapString "server" "host", zapString "accountId" "u1", zapString "tenantid" "T1",
           zapString "workspaceid" "W1", zapString "requestIp" "127.0.0.1",
           zapString "requestUrl" "https://example.com"]
            ++ ginAdded specKeys ⟨7⟩ ⟨8⟩
              (Context.values [("accountId", GoValue.str "u1"),
                ("requestIp", GoValue.str "127.0.0.1"),
                ("requestUrl", GoValue.str "https://example.com"),
                ("objectIds", GoValue.str "tenantid=T1&workspaceid=W1")]))] :=
  (C6_scenario_amended specKeys "host" ⟨7⟩ ⟨8⟩
    (Context.values [("accountId", GoValue.str "u1"), ("requestIp", GoValue.str "127.0.0.1"),
      ("requestUrl", GoValue.str "https://example.com"),
      ("objectIds", GoValue.str "tenantid=T1&workspaceid=W1")])
    "u1" "127.0.0.1" "https://example.com" "msg"
    (by decide) (by decide) (by decide) (by decide) (by decide) (by decide) (by decide)
    (by decide)).1

/-- C7. For each of the numeric keys `Line`, `ResponseCode` and
`ResponseLength`: if the context binds the key to an unsigned integer `n`, zero
included, the result of `getFields` contains the unsigned-integer field named
by the key with value `n`. -/
theorem C7_numeric_field_emitted (kt : ContextType) (hostname : String) (now now2 : Time)
    (ctx : Context) (K : String) (n : Nat) (hK : K ∈ uintKeys kt)
    (h : ctx.Value K = some (GoValue.uint n)) :
    zapUint K n ∈ (getFields kt hostname now now2 ctx).fields := by
  apply mem_getFields_of_slot kt hostname now now2 ctx (ne_nil_of_value ctx K _ h)
    (Slot.uint K) (uintSlot_mem kt K hK)
  simp [Slot.emit, uintField, h]

/-- C7, at a concrete input: a response code bound to zero. -/
theorem C7_numeric_field_emitted_witness :
    "responseCode" ∈ uintKeys specKeys ∧
    zapUint "responseCode" 0 ∈ (getFields specKeys "host" ⟨7⟩ ⟨8⟩
        (Context.values [("responseCode", GoValue.uint 0)])).fields :=
  ⟨by decide,
   C7_numeric_field_emitted specKeys "host" ⟨7⟩ ⟨8⟩
     (Context.values [("responseCode", GoValue.uint 0)]) "responseCode" 0 (by decide)
     (by decide)⟩

/-- C8, as stated, fails: with `RequestStart` one nanosecond after the zero
instant and `now` in November 2026, the field `requestDuration` holds the
largest duration, which is not `now - t`. -/
theorem C8_counterexample :
    (getFields specKeys "host" ⟨63929260800000000000⟩ ⟨63929260800000000000⟩
        (Context.values [("requestStart", GoValue.time ⟨1⟩)])).fields
      = [zapString "server" "host", zapDuration "requestDuration" 9223372036854775807] ∧
    (9223372036854775807 : Int) ≠ 63929260800000000000 - 1 := by
  decide

/-- C8, amended. If `RequestStart` is bound to a non-zero timestamp `t`, the
duration fields named `requestDuration` in the result of `getFields` are exactly
one, with value `now.Sub(t)` for the clock reading `now` of line 160: that is
`now - t` when the difference fits a 64-bit duration, and the smallest or the
largest duration when it does not. If `RequestStart` is unbound, bound to the
zero timestamp or bound to a value that is not a timestamp, then, for well
formed constants and when no segment of `ObjectIDs` supplies that name, no
field of the result is named `requestDuration`. -/
theorem C8_request_duration_amended (kt : ContextType) (hostname : String) (now now2 : Time)
    (ctx : Context) :
    (∀ t : Time, ctx.Value kt.RequestStart = some (GoValue.time t) → t.nsec ≠ 0 →
      (getFields kt hostname now now2 ctx).fields.filter Field.isRequestDuration
        = [zapDuration "requestDuration" (now.Sub t)] ∧
      (minDuration ≤ now.nsec - t.nsec → now.nsec - t.nsec ≤ maxDuration →
        now.Sub t = now.nsec - t.nsec) ∧
      (now.nsec - t.nsec < minDuration → now.Sub t = minDuration) ∧
      (maxDuration < now.nsec - t.nsec → now.Sub t = maxDuration)) ∧
    (kt.WellFormed → (∀ f ∈ objectIDsFields kt ctx, f.Key ≠ "requestDuration") →
      (∀ t : Time, ctx.Value kt.RequestStart = some (GoValue.time t) → t.nsec = 0) →
      ∀ f ∈ (getFields kt hostname now now2 ctx).fields, f.Key ≠ "requestDuration") := by
  constructor
  · intro t ht hne
    refine ⟨?_, ?_, ?_, ?_⟩
    · rw [getFields_fields kt hostname now now2 ctx (ne_nil_of_value ctx _ _ ht)]
      have hserver : Field.isRequestDuration (zapString "server" hostname) = false := by
        simp [Field.isRequestDuration, zapString]
      have hdur : Field.isRequestDuration (zapDuration "requestDuration" (now.Sub t)) = true := by
        simp [Field.isRequestDuration, zapDuration, Field.isDuration]
      simp [List.filter_cons, List.filter_append, requestDuration_filter_objectIDs,
        requestDuration_filter_ginAdded, leadingSlots, trailingSlots, emitAll, Slot.emit,
        requestDuration_filter_stringField, requestDuration_filter_uintField,
        requestDurationField, ht, Time.IsZero, hne, hserver, hdur]
    · intro h1 h2
      simp only [Time.Sub]
      rw [if_neg (not_lt.mpr h1), if_neg (not_lt.mpr h2)]
    · intro h1
      simp only [Time.Sub]
      rw [if_pos h1]
    · intro h2
      have h1 : ¬ now.nsec - t.nsec < minDuration := by
        have : minDuration ≤ maxDuration := by decide
        omega
      simp only [Time.Sub]
      rw [if_neg h1, if_pos h2]
  · intro hwf hobj hzero f hf hkey
    have hdur : Slot.duration kt.RequestStart ∈ leadingSlots kt ++ trailingSlots kt := by
      simp [leadingSlots, trailingSlots]
    rcases mem_getFields kt hostname now now2 ctx f hf with h | ⟨slot, hs, hfs⟩ | h | h
    · rw [h] at hkey
      simp [zapString] at hkey
    · have hname : slot.name = (Slot.duration kt.RequestStart).name := by
        rw [← Slot.key_of_mem_emit ctx now slot f hfs, hkey]; rfl
      have hslotEq := slot_eq_of_name kt hwf slot _ hs hdur hname
      rw [hslotEq] at hfs
      simp only [Slot.emit, requestDurationField] at hfs
      split at hfs
      · rename_i requestStart heq
        have := hzero requestStart heq
        simp [Time.IsZero, this] at hfs
      · simp at hfs
    · exact hobj f h hkey
    · rcases key_of_mem_ginAdded kt now now2 ctx f h with e | e <;> simp [e] at hkey

/-- C8 amended, at a concrete input: a request started 250 nanoseconds before
the clock reading. -/
theorem C8_request_duration_amended_witness :
    (getFields specKeys "host" ⟨63929260800000000000⟩ ⟨63929260800000000007⟩
        (Context.values [("requestStart", GoValue.time ⟨63929260799999999750⟩)])).fields.filter
        Field.isRequestDuration
      = [zapDuration "requestDuration"
          ((⟨63929260800000000000⟩ : Time).Sub ⟨63929260799999999750⟩)] ∧
    (⟨63929260800000000000⟩ : Time).Sub ⟨63929260799999999750⟩ = 250 :=
  ⟨((C8_request_duration_amended specKeys "host" ⟨63929260800000000000⟩
      ⟨63929260800000000007⟩
      (Context.values [("requestStart", GoValue.time ⟨63929260799999999750⟩)])).1
      ⟨63929260799999999750⟩ (by decide) (by decide)).1,
   by decide⟩

/-- C10, on the code: called with the nil `*gin.Context`, `getFields` panics
at the first call of `Value`, line 163, and returns no field list, whatever the
constants, the hostname and the clock; called with a pointer to a
`gin.Context` it returns what `getFields` returns on that context. -/
theorem C10_nil_gin_pointer_panics (kt : ContextType) (hostname : String) (now now2 : Time) :
    getFieldsOfPointer kt hostname now now2 none = none ∧
    ∀ c : GinContext, getFieldsOfPointer kt hostname now now2 (some c)
      = some (getFields kt hostname now now2 (Context.gin c)) := by
  constructor
  · simp [getFieldsOfPointer, ginPointerValue]
  · intro c
    simp [getFieldsOfPointer, ginPointerValue]

/-- C11, on the code: whatever a `Sync` of the primary logger returns, an error
included, the events of `Fatal` are the record given to the primary logger at
fatal severity with the fields of `getFields`, the sync of the sink that zap's
core makes on writing it, and the end of the process with status 1 inside
`(*zap.Logger).Fatal`; no line is given to `log.Println`, line 127 being out of
reach. -/
theorem C11_fatal_flush_error_unreported (kt : ContextType) (hostname : String)
    (now now2 : Time) (ctx : Context) (data : String) (syncErr : Option String) :
    (Fatal kt hostname now now2 ctx data syncErr).events
      = [Event.log Sink.logger Level.Fatal data (getFields kt hostname now now2 ctx).fields,
         Event.sync Sink.logger, Event.exit 1] ∧
    (∀ line, Event.println line ∉ (Fatal kt hostname now now2 ctx data syncErr).events) ∧
    (Fatal specKeys "host" ⟨7⟩ ⟨8⟩ Context.nil "boom" (some "sync failed")).events
      = [Event.log Sink.logger Level.Fatal "boom" [zapString "server" "host"],
         Event.sync Sink.logger, Event.exit 1] := by
  have h : (Fatal kt hostname now now2 ctx data syncErr).events
      = [Event.log Sink.logger Level.Fatal data (getFields kt hostname now now2 ctx).fields,
         Event.sync Sink.logger, Event.exit 1] := by
    cases syncErr <;> simp [Fatal, zapFatal, untilExit]
  refine ⟨h, ?_, by decide⟩
  intro line
  rw [h]
  simp

/-- C12. In the configuration `init` builds, the level of the primary logger
depends on `LOGGING_LEVEL` only through `strings.ToLower`; the lowered tokens
`debug`, `verbose`, `1` give `DebugLevel`, `info`, `2` give `InfoLevel`, `warn`,
`warning`, `3` give `WarnLevel`, `error`, `4` give `ErrorLevel` and `critical`,
`fatal`, `5` give `PanicLevel`, five severities in strictly increasing order;
any other lowered token, the empty one included, leaves the level of
`zap.NewDevelopmentConfig` or `zap.NewProductionConfig` as it was; and the
external logger is given the level of the primary one. -/
theorem C12_level_configuration (ToLower : String → String) (debug goos token : String) :
    (ToLower token ∈ ["debug", "verbose", "1"] →
      (initConfig ToLower debug goos token).1.Level = Level.Debug) ∧
    (ToLower token ∈ ["info", "2"] →
      (initConfig ToLower debug goos token).1.Level = Level.Info) ∧
    (ToLower token ∈ ["warn", "warning", "3"] →
      (initConfig ToLower debug goos token).1.Level = Level.Warn) ∧
    (ToLower token ∈ ["error", "4"] →
      (initConfig ToLower debug goos token).1.Level = Level.Error) ∧
    (ToLower token ∈ ["critical", "fatal", "5"] →
      (initConfig ToLower debug goos token).1.Level = Level.Panic) ∧
    (ToLower token ∉ levelTokens →
      (initConfig ToLower debug goos token).1.Level
        = (if debug ≠ "" then NewDevelopmentConfig else NewProductionConfig).Level) ∧
    (ToLower "" = "" →
      (initConfig ToLower debug goos "").1.Level
        = (if debug ≠ "" then NewDevelopmentConfig else NewProductionConfig).Level) ∧
    (initConfig ToLower debug goos token).2.Level
      = (initConfig ToLower debug goos token).1.Level ∧
    (Level.Debug.value < Level.Info.value ∧ Level.Info.value < Level.Warn.value ∧
      Level.Warn.value < Level.Error.value ∧ Level.Error.value < Level.Panic.value) ∧
    (∀ token2, ToLower token2 = ToLower token →
      initConfig ToLower debug goos token2 = initConfig ToLower debug goos token) ∧
    (initConfig asciiLower "" "linux" "WARNING").1.Level = Level.Warn ∧
    (initConfig asciiLower "" "linux" "Fatal").1.Level = Level.Panic := by
  refine ⟨?_, ?_, ?_, ?_, ?_, ?_, ?_, ?_, by decide, ?_, by decide, by decide⟩
  · intro h
    simp only [List.mem_cons, List.mem_singleton, List.not_mem_nil, or_false] at h
    simp [initConfig, h]
  · intro h
    simp only [List.mem_cons, List.mem_singleton, List.not_mem_nil, or_false] at h
    rcases h with h | h <;> simp [initConfig, h]
  · intro h
    simp only [List.mem_cons, List.mem_singleton, List.not_mem_nil, or_false] at h
    rcases h with h | h | h <;> simp [initConfig, h]
  · intro h
    simp only [List.mem_cons, List.mem_singleton, List.not_mem_nil, or_false] at h
    rcases h with h | h <;> simp [initConfig, h]
  · intro h
    simp only [List.mem_cons, List.mem_singleton, List.not_mem_nil, or_false] at h
    rcases h with h | h | h <;> simp [initConfig, h]
  · intro h
    simp only [levelTokens, List.mem_cons, List.mem_singleton, List.not_mem_nil, or_false,
      not_or] at h
    obtain ⟨h1, h2, h3, h4, h5, h6, h7, h8, h9, h10, h11, h12, h13⟩ := h
    by_cases hd : debug = "" <;> by_cases hg : goos = "windows" <;>
      simp [initConfig, h1, h2, h3, h4, h5, h6, h7, h8, h9, h10, h11, h12, h13, hd, hg,
        NewDevelopmentConfig, NewProductionConfig]
  · intro h
    by_cases hd : debug = "" <;> by_cases hg : goos = "windows" <;>
      simp [initConfig, h, hd, hg, NewDevelopmentConfig, NewProductionConfig]
  · simp [initConfig]
  · intro token2 h
    simp [initConfig, h]

/-- C12, at a concrete input: the token `Error` in a production setting. -/
theorem C12_level_configuration_witness :
    asciiLower "Error" ∈ ["error", "4"] ∧
    (initConfig asciiLower "" "linux" "Error").1.Level = Level.Error :=
  ⟨by decide,
   (C12_level_configuration asciiLower "" "linux" "Error").2.2.2.1 (by decide)⟩

/-- C13. For every depth and every string, `LogProvider.Output` gives the
external logger one record, at debug severity, with the string as message and
no field, gives the primary logger nothing, ends nothing, returns a nil error,
and does the same whatever the depth. -/
theorem C13_output_bridges_to_external (depth : Int) (data : String) :
    (LogProvider.Output depth data).1
      = [Event.log Sink.externalLogger Level.Debug data []] ∧
    logged (LogProvider.Output depth data).1
      = [(Sink.externalLogger, Level.Debug, data, [])] ∧
    (∀ e ∈ (LogProvider.Output depth data).1,
      (∀ level msg fields, e ≠ Event.log Sink.logger level msg fields) ∧
      (∀ code, e ≠ Event.exit code)) ∧
    (LogProvider.Output depth data).2 = none ∧
    ∀ depth2, LogProvider.Output depth2 data = LogProvider.Output depth data := by
  refine ⟨rfl, rfl, ?_, rfl, fun _ => rfl⟩
  intro e he
  simp only [LogProvider.Output, List.mem_singleton] at he
  subst he
  simp

/-- C15, at the failing input: a `*gin.Context` that qualifies for the
augmentation and binds `RequestStart` and `SegmentStart` to the same instant,
with the clock reading 1000 at line 160 and 1005 at line 377, gets a
`requestDuration` of 100 and a `segmentDuration` of 105. -/
theorem C15_segment_duration_second_reading :
    (getFields specKeys "host" ⟨1000⟩ ⟨1005⟩
        (Context.gin ⟨[("requestStart", GoValue.time ⟨900⟩),
            ("segmentStart", GoValue.time ⟨900⟩)], some ⟨some []⟩⟩)).fields
      = [zapString "server" "host", zapDuration "requestDuration" 100,
         zapDuration "segmentDuration" 105] := by
  decide

/-- C16. When the context is not a `*gin.Context`, or is one whose flag `bulk`
is the boolean `true`, `getFields` leaves the context as it was and returns no
integer field `contentLength` and no duration field `segmentDuration`; so a
change of the context or such a field in the result is only found with a
`*gin.Context` whose flag `bulk` is not `true`. For such a context the integer
field `contentLength = n` is in the result exactly when the writer and its
header are there and `strconv.Atoi` reads `n` out of `Content-Length`. -/
theorem C16_augmentation_gate (kt : ContextType) (hostname : String) (now now2 : Time)
    (ctx : Context) :
    (((∀ c, ctx ≠ Context.gin c) ∨
        ∃ c, ctx = Context.gin c ∧ c.Value "bulk" = some (GoValue.bool true)) →
      (getFields kt hostname now now2 ctx).ctx = ctx ∧
      ∀ f ∈ (getFields kt hostname now now2 ctx).fields, f.isAugmentation = false) ∧
    (((getFields kt hostname now now2 ctx).ctx ≠ ctx ∨
        ∃ f ∈ (getFields kt hostname now now2 ctx).fields, f.isAugmentation = true) →
      ∃ c, ctx = Context.gin c ∧ c.Value "bulk" ≠ some (GoValue.bool true)) ∧
    (∀ c, ctx = Context.gin c → c.Value "bulk" ≠ some (GoValue.bool true) → ∀ n : Int,
      (zapInt "contentLength" n ∈ (getFields kt hostname now now2 ctx).fields ↔
        ∃ writer header, c.Writer = some writer ∧ writer.Header = some header ∧
          strconv.Atoi (header.Get "Content-Length") = some n)) := by
  have hoff : ((∀ c, ctx ≠ Context.gin c) ∨
        ∃ c, ctx = Context.gin c ∧ c.Value "bulk" = some (GoValue.bool true)) →
      (getFields kt hostname now now2 ctx).ctx = ctx ∧
      ∀ f ∈ (getFields kt hostname now now2 ctx).fields, f.isAugmentation = false := by
    intro h
    have hctx : (getFields kt hostname now now2 ctx).ctx = ctx := by
      rcases h with h | ⟨c, rfl, hb⟩
      · exact getFields_ctx_of_not_gin kt hostname now now2 ctx h
      · exact getFields_ctx_of_bulk kt hostname now now2 c hb
    have hadd : ginAdded kt now now2 ctx = [] := by
      rcases h with h | ⟨c, rfl, hb⟩
      · exact ginAdded_not_gin kt now now2 ctx h
      · exact ginAdded_of_bulk kt now now2 c hb
    refine ⟨hctx, ?_⟩
    intro f hf
    rw [getFields_fields_all, hadd, List.append_nil] at hf
    exact base_not_augmentation kt hostname now ctx f hf
  refine ⟨hoff, ?_, ?_⟩
  · intro h
    by_contra hno
    have hgate : (∀ c, ctx ≠ Context.gin c) ∨
        ∃ c, ctx = Context.gin c ∧ c.Value "bulk" = some (GoValue.bool true) := by
      cases ctx with
      | nil => exact Or.inl (fun c => by simp)
      | values bs => exact Or.inl (fun c => by simp)
      | gin c =>
        right
        refine ⟨c, rfl, ?_⟩
        by_contra hb
        exact hno ⟨c, rfl, hb⟩
    obtain ⟨h1, h2⟩ := hoff hgate
    rcases h with h | ⟨f, hf, hfa⟩
    · exact h h1
    · rw [h2 f hf] at hfa
      exact Bool.noConfusion hfa
  · intro c hc hb n
    subst hc
    have hmem : zapInt "contentLength" n ∈ (getFields kt hostname now now2 (Context.gin c)).fields
        ↔ zapInt "contentLength" n ∈ ginAdded kt now now2 (Context.gin c) := by
      rw [getFields_fields_all]
      constructor
      · intro h
        rcases List.mem_cons.mp h with h | h
        · simp [zapInt, zapString] at h
        · rcases List.mem_append.mp h with h | h
          · have := base_not_augmentation kt hostname now (Context.gin c) _
              (List.mem_cons_of_mem _ h)
            simp [Field.isAugmentation, zapInt] at this
          · exact h
      · intro h
        exact List.mem_cons_of_mem _ (List.mem_append_right _ h)
    rw [hmem, ginAdded_gin, if_pos hb]
    cases hw : c.Writer with
    | none => simp
    | some writer =>
      cases hh : writer.Header with
      | none => simp [hh]
      | some header =>
        simp only [hh, Option.some.injEq, exists_and_left, exists_eq_left', List.mem_append]
        constructor
        · intro h
          rcases h with h | h
          · split at h
            · rename_i m hm
              simp only [List.mem_singleton, zapInt, Field.mk.injEq, FieldValue.int.injEq,
                true_and] at h
              rw [hm, h]
            · simp at h
          · split at h
            · simp [zapInt, zapDuration] at h
            · simp at h
        · intro h
          left
          rw [h]
          simp

/-- C16, at a concrete input: a `*gin.Context` flagged `bulk`, with a header
and a segment start that would otherwise be used. -/
theorem C16_augmentation_gate_witness :
    (getFields specKeys "host" ⟨1000⟩ ⟨1005⟩
        (Context.gin ⟨[("bulk", GoValue.bool true), ("segmentStart", GoValue.time ⟨900⟩)],
          some ⟨some [("Content-Length", ["5"])]⟩⟩)).ctx
      = Context.gin ⟨[("bulk", GoValue.bool true), ("segmentStart", GoValue.time ⟨900⟩)],
          some ⟨some [("Content-Length", ["5"])]⟩⟩ ∧
    ∀ f ∈ (getFields specKeys "host" ⟨1000⟩ ⟨1005⟩
        (Context.gin ⟨[("bulk", GoValue.bool true), ("segmentStart", GoValue.time ⟨900⟩)],
          some ⟨some [("Content-Length", ["5"])]⟩⟩)).fields, f.isAugmentation = false :=
  (C16_augmentation_gate specKeys "host" ⟨1000⟩ ⟨1005⟩
    (Context.gin ⟨[("bulk", GoValue.bool true), ("segmentStart", GoValue.time ⟨900⟩)],
      some ⟨some [("Content-Length", ["5"])]⟩⟩)).1
    (Or.inr ⟨_, rfl, by decide⟩)

/-- C17, as stated, fails for a `*gin.Context`: with a `Content-Length` header
the result is `server`, `accountId`, `contentLength`, and `contentLength` is not
in the fixed order the claim lists, which ends with `WorkerID`. -/
theorem C17_counterexample :
    (getFields specKeys "host" ⟨1000⟩ ⟨1005⟩
        (Context.gin ⟨[("accountId", GoValue.str "u1")],
          some ⟨some [("Content-Length", ["5"])]⟩⟩)).fields
      = [zapString "server" "host", zapString "accountId" "u1", zapInt "contentLength" 5] ∧
    ¬ ((getFields specKeys "host" ⟨1000⟩ ⟨1005⟩
          (Context.gin ⟨[("accountId", GoValue.str "u1")],
            some ⟨some [("Content-Length", ["5"])]⟩⟩)).fields.map Field.Key).Sublist
        (plainOrder specKeys []) := by
  decide

/-- C17, amended. In every result of `getFields` the field names are a
subsequence of the fixed order `server`, `AccountEmail`, ..., `NodeURI`, the
names read out of `ObjectIDs` in segment order, `Referer`, `requestDuration`,
`RequestID`, ..., `WorkerID`, `contentLength`, `segmentDuration`. For a context
that is not a `*gin.Context` they are a subsequence of that order up to
`WorkerID` and the result does not depend on the clock reading of line 377. For
a chain of bindings under pairwise different keys the result does not depend on
the order in which the values were attached. -/
theorem C17_field_order_amended (kt : ContextType) (hostname : String) (now now2 : Time)
    (ctx : Context) :
    ((getFields kt hostname now now2 ctx).fields.map Field.Key).Sublist
      (plainOrder kt ((objectIDsFields kt ctx).map Field.Key)
        ++ ["contentLength", "segmentDuration"]) ∧
    ((∀ c, ctx ≠ Context.gin c) →
      ((getFields kt hostname now now2 ctx).fields.map Field.Key).Sublist
        (plainOrder kt ((objectIDsFields kt ctx).map Field.Key)) ∧
      ∀ now3, (getFields kt hostname now now3 ctx).fields
        = (getFields kt hostname now now2 ctx).fields) ∧
    (∀ bs1 bs2 : List (String × GoValue), (bs1.map Prod.fst).Nodup → bs1.Perm bs2 →
      (getFields kt hostname now now2 (Context.values bs1)).fields
        = (getFields kt hostname now now2 (Context.values bs2)).fields) := by
  refine ⟨?_, ?_, ?_⟩
  · rw [← fieldNames_eq_plainOrder]
    exact getFields_keys_sublist kt hostname now now2 ctx
  · intro h
    constructor
    · rw [getFields_fields_all, ginAdded_not_gin kt now now2 ctx h, List.append_nil]
      simp only [plainOrder, List.map_cons, List.map_append, zapString, List.cons_append]
      refine List.Sublist.cons₂ _ ?_
      have h1 := emitAll_keys_sublist ctx now (leadingSlots kt)
      have h2 := emitAll_keys_sublist ctx now (trailingSlots kt)
      simp only [leadingSlots, trailingSlots, List.map_cons, List.map_nil, Slot.name] at h1 h2
      exact (h1.append (List.Sublist.refl _)).append h2
    · intro now3
      exact fields_eq_of_agree kt hostname now now3 now2 ctx ctx h h (fun _ _ => rfl)
  · intro bs1 bs2 hnd hp
    apply fields_eq_of_agree kt hostname now now2 now2 _ _ (by simp) (by simp)
    intro k _
    exact lookup_perm k bs1 bs2 hnd hp

/-- C17 amended, at a concrete input: two values attached in either order. -/
theorem C17_field_order_amended_witness :
    ([("requestIp", GoValue.str "127.0.0.1"), ("accountId", GoValue.str "u1")].map
        Prod.fst).Nodup ∧
    (getFields specKeys "host" ⟨7⟩ ⟨8⟩
        (Context.values [("requestIp", GoValue.str "127.0.0.1"),
          ("accountId", GoValue.str "u1")])).fields
      = (getFields specKeys "host" ⟨7⟩ ⟨8⟩
          (Context.values [("accountId", GoValue.str "u1"),
            ("requestIp", GoValue.str "127.0.0.1")])).fields :=
  ⟨by decide,
   (C17_field_order_amended specKeys "host" ⟨7⟩ ⟨8⟩ Context.nil).2.2
     [("requestIp", GoValue.str "127.0.0.1"), ("accountId", GoValue.str "u1")]
     [("accountId", GoValue.str "u1"), ("requestIp", GoValue.str "127.0.0.1")]
     (by decide) (List.Perm.swap _ _ _)⟩

/-- C18, as stated, fails: the segment `a=b=c` contributes the field `a` with
value `b=c`. -/
theorem C18_counterexample :
    (getFields specKeys "host" ⟨7⟩ ⟨8⟩
        (Context.values [("objectIds", GoValue.str "a=b=c")])).fields
      = [zapString "server" "host", zapString "a" "b=c"] := by
  decide

/-- C18, amended. For every string bound to `ObjectIDs` and every one of its
`&`-separated segments: a segment that contains a `=`, be it once or several
times, contributes exactly one field, named by the text before the first `=`
and valued by all the text after it, which with two or more `=` in the segment
still contains a `=`; only a segment with no `=` contributes no field. -/
theorem C18_segments_amended (kt : ContextType) (ctx : Context) (s segment : String)
    (h : ctx.Value kt.ObjectIDs = some (GoValue.str s))
    (hseg : segment ∈ strings.Split s '&') :
    ('=' ∈ segment.data →
      objectIDsLoop [segment] [] = [segmentField segment] ∧
      segmentField segment ∈ objectIDsFields kt ctx) ∧
    (2 ≤ segment.data.count '=' →
      segmentField segment ∈ objectIDsFields kt ctx ∧
      '=' ∈ (segmentField segment).text.data) ∧
    ('=' ∉ segment.data → objectIDsLoop [segment] [] = []) := by
  have hin : '=' ∈ segment.data → segmentField segment ∈ objectIDsFields kt ctx := by
    intro hm
    rw [objectIDsFields_eq kt ctx s h]
    simp only [compositeSpec, List.mem_filterMap]
    exact ⟨segment, hseg, by simp [hm, segmentField]⟩
  refine ⟨?_, ?_, ?_⟩
  · intro hm
    refine ⟨?_, hin hm⟩
    rw [objectIDsLoop_eq]
    simp [hm, segmentField]
  · intro h2
    have hm : '=' ∈ segment.data := List.one_le_count_iff.mp (Nat.le_of_succ_le h2)
    refine ⟨hin hm, ?_⟩
    have hc := count_after_cut '=' segment.data
    have hpos : 1 ≤ ((segment.data.dropWhile fun x => x ≠ '=').drop 1).count '=' := by
      rw [hc]
      omega
    simpa [segmentField, Field.text, zapString] using List.one_le_count_iff.mp hpos
  · intro hm
    rw [objectIDsLoop_eq]
    simp [hm]

/-- C18 amended, at a concrete input: the segment `a=b=c` of the value
`x=1&a=b=c`. -/
theorem C18_segments_amended_witness :
    "a=b=c" ∈ strings.Split "x=1&a=b=c" '&' ∧
    segmentField "a=b=c" ∈ objectIDsFields specKeys
        (Context.values [("objectIds", GoValue.str "x=1&a=b=c")]) ∧
    '=' ∈ (segmentField "a=b=c").text.data :=
  ⟨by decide,
   (C18_segments_amended specKeys (Context.values [("objectIds", GoValue.str "x=1&a=b=c")])
      "x=1&a=b=c" "a=b=c" (by decide) (by decide)).2.1 (by decide)⟩

/-- C20. Two contexts that are not `*gin.Context`s and that agree on every key
`getFields` reads get the same field list, for the same hostname and clock
reading, whatever they bind under other keys. -/
theorem C20_unread_keys_stay_out (kt : ContextType) (hostname : String) (now now2 : Time)
    (c1 c2 : Context) (h1 : ∀ g, c1 ≠ Context.gin g) (h2 : ∀ g, c2 ≠ Context.gin g)
    (hagree : ∀ k ∈ readKeys kt, c1.Value k = c2.Value k) :
    (getFields kt hostname now now2 c1).fields = (getFields kt hostname now now2 c2).fields :=
  fields_eq_of_agree kt hostname now now2 now2 c1 c2 h1 h2 hagree

/-- C20, at a concrete input: the context of `TestLog` with and without the
values under the keys `AccountJWT` and `AccountXSRFState`. -/
theorem C20_unread_keys_stay_out_witness :
    (∀ k ∈ readKeys specKeys,
      (Context.values [("accountXsrfState", GoValue.str "sampleXSRF"),
          ("accountJwt", GoValue.str "sampleJWT"), ("accountId", GoValue.str "u1")]).Value k
        = (Context.values [("accountId", GoValue.str "u1")]).Value k) ∧
    (getFields specKeys "host" ⟨7⟩ ⟨8⟩
        (Context.values [("accountXsrfState", GoValue.str "sampleXSRF"),
          ("accountJwt", GoValue.str "sampleJWT"), ("accountId", GoValue.str "u1")])).fields
      = (getFields specKeys "host" ⟨7⟩ ⟨8⟩
          (Context.values [("accountId", GoValue.str "u1")])).fields :=
  ⟨by decide,
   C20_unread_keys_stay_out specKeys "host" ⟨7⟩ ⟨8⟩
     (Context.values [("accountXsrfState", GoValue.str "sampleXSRF"),
       ("accountJwt", GoValue.str "sampleJWT"), ("accountId", GoValue.str "u1")])
     (Context.values [("accountId", GoValue.str "u1")])
     (fun g => by simp) (fun g => by simp) (by decide)⟩

end Logger
